import Mathlib

/-!
# Verification of the vibe-tracker real-time synthesis core

A shallow embedding, in Lean 4, of the synthesis engine and sequencer of the
vibe-tracker step-sequencer (files `src/synthesis.py`, `src/effects.py`,
`src/music_structures.py`, `src/sequencer.py`), together with theorems that
settle the frozen specification claims about it.

Conventions of the embedding:
* Python floats are modelled as exact rationals (`ℚ`); the real-valued
  oscillator mathematics (`np.sin`, phase wrapping modulo `2·π`) is modelled
  over `ℝ`.  All the properties settled here are structural (control flow,
  counting, state updates, exact closed-form ramps), not rounding properties.
* Mutation is modelled by explicit state passing: a method that mutates an
  object becomes a function returning the updated object.
* Python exceptions raised inside a sub-computation are modelled by giving the
  fallible sub-computation the type `Except Unit α`; the caller's
  `try/except` becomes a `match` on that value.
* `float('inf')` stage rates of `ADSREnvelope` (which the source only
  produces for zero-duration stages) are outside the rational embedding; the
  theorems about the envelope assume positive stage durations.
-/

-- The batteries library marks the `ℚ` field operations `@[irreducible]` (a
-- simp-indexing optimization); that hides their definitions from `decide`.
-- Restore the default reducibility so that concrete witnesses evaluate; the
-- kernel-checked semantics of the operations are unchanged.
set_option allowUnsafeReducibility true in
attribute [semireducible] Rat.inv Rat.mul Rat.add Rat.sub Rat.ofScientific

namespace VibeTracker

/-- `SAMPLE_RATE = 44100` from `synthesis.py`. -/
def SAMPLE_RATE : ℚ := 44100

/-! ## ADSR envelope (`synthesis.ADSREnvelope`) -/

/-- The envelope state strings `'off' | 'attack' | 'decay' | 'sustain' | 'release'`. -/
inductive EnvState
  | off
  | attack
  | decay
  | sustain
  | release
deriving DecidableEq

/-- The fields of `ADSREnvelope`.  `attack_rate = 1/(attack·SAMPLE_RATE)`,
`decay_rate = (1-sustain_level)/(decay·SAMPLE_RATE)` are stored precomputed,
exactly as in `ADSREnvelope.__init__`; the embedding covers positive stage
durations (the source stores `float('inf')` for zero durations). -/
structure ADSREnvelope where
  attack_rate : ℚ
  decay_rate : ℚ
  release_time : ℚ
  release_rate : ℚ
  sustain_level : ℚ
  state : EnvState
  level : ℚ
deriving DecidableEq

/-- `ADSREnvelope.__init__(attack, decay, sustain_level, release)` for positive
`attack` and `decay` (the zero-duration case stores `float('inf')` in the
source and is outside this embedding). -/
def ADSREnvelope.init (attack decay sustain_level release : ℚ) : ADSREnvelope :=
  { attack_rate := 1 / (attack * SAMPLE_RATE)
    decay_rate := (1 - sustain_level) / (decay * SAMPLE_RATE)
    release_time := release
    release_rate := 0
    sustain_level := sustain_level
    state := EnvState.off
    level := 0 }

/-- `ADSREnvelope.note_on`. -/
def ADSREnvelope.envNoteOn (env : ADSREnvelope) : ADSREnvelope :=
  { env with state := EnvState.attack }

/-- `ADSREnvelope.note_off`: the release rate is derived from the *current*
level.  The `release_time ≤ 0` branch stores `float('inf')` in the source
(instant release); the embedding keeps the rate unchanged there and the
theorems below assume `release_time > 0`. -/
def ADSREnvelope.envNoteOff (env : ADSREnvelope) : ADSREnvelope :=
  if env.release_time > 0 then
    { env with
        release_rate := env.level / (env.release_time * SAMPLE_RATE)
        state := EnvState.release }
  else
    { env with state := EnvState.release }

/-- One iteration of the sample-by-sample generator loop of
`ADSREnvelope.process` (the body of `while True: ...; yield self.level`):
returns the updated envelope and the yielded level. -/
def ADSREnvelope.processStep (env : ADSREnvelope) : ADSREnvelope × ℚ :=
  match env.state with
  | EnvState.attack =>
      let lvl := env.level + env.attack_rate
      if lvl ≥ 1 then ({ env with level := 1, state := EnvState.decay }, 1)
      else ({ env with level := lvl }, lvl)
  | EnvState.decay =>
      let lvl := env.level - env.decay_rate
      if lvl ≤ env.sustain_level then
        ({ env with level := env.sustain_level, state := EnvState.sustain }, env.sustain_level)
      else ({ env with level := lvl }, lvl)
  | EnvState.sustain =>
      ({ env with level := env.sustain_level }, env.sustain_level)
  | EnvState.release =>
      let lvl := env.level - env.release_rate
      if lvl ≤ 0 then ({ env with level := 0, state := EnvState.off }, 0)
      else ({ env with level := lvl }, lvl)
  | EnvState.off =>
      ({ env with level := 0 }, 0)

/-- Taking `n` successive values from the `ADSREnvelope.process` generator. -/
def ADSREnvelope.processTake : ADSREnvelope → ℕ → ADSREnvelope × List ℚ
  | env, 0 => (env, [])
  | env, n + 1 =>
      let p := env.processStep
      let q := p.1.processTake n
      (q.1, p.2 :: q.2)

/-- `ActiveNote._generate_envelope_block(num_samples)`: the vectorized
closed-form ramp.  In the ramping states the source updates the stored level
to `envelope_samples[-1]`; `getLastD` with default `env.level` models this
(the source raises `IndexError` on an empty block in a ramping state, so all
theorems about ramping states assume `0 < num_samples`). -/
def generate_envelope_block (env : ADSREnvelope) (num_samples : ℕ) :
    ADSREnvelope × List ℚ :=
  match env.state with
  | EnvState.off => (env, List.replicate num_samples 0)
  | EnvState.sustain => (env, List.replicate num_samples env.sustain_level)
  | EnvState.attack =>
      let samples := (List.range num_samples).map
        (fun i : ℕ => min (env.level + (i : ℚ) * env.attack_rate) 1)
      let newLevel := samples.getLastD env.level
      let newState := if newLevel ≥ 1 then EnvState.decay else EnvState.attack
      ({ env with level := newLevel, state := newState }, samples)
  | EnvState.decay =>
      let samples := (List.range num_samples).map
        (fun i : ℕ => max (env.level - (i : ℚ) * env.decay_rate) env.sustain_level)
      let newLevel := samples.getLastD env.level
      let newState := if newLevel ≤ env.sustain_level then EnvState.sustain else EnvState.decay
      ({ env with level := newLevel, state := newState }, samples)
  | EnvState.release =>
      let samples := (List.range num_samples).map
        (fun i : ℕ => max (env.level - (i : ℚ) * env.release_rate) 0)
      let newLevel := samples.getLastD env.level
      let newState := if newLevel ≤ 0 then EnvState.off else EnvState.release
      ({ env with level := newLevel, state := newState }, samples)

/-! ## Filter (`synthesis.apply_filter`) -/

/-- `apply_filter(signal, cutoff_hz, resonance_q, filter_type)`.  The two scipy
calls (`butter` + `lfilter`) are external library code, passed in here as the
parameters `lowpassFilter` and `highpassFilter` (each given the normalized
cutoff and the signal).  `resonance_q` is accepted and unused, as in the
source. -/
def apply_filter (lowpassFilter highpassFilter : ℚ → List ℚ → List ℚ)
    (signal : List ℚ) (cutoff_hz : ℚ) (resonance_q : ℚ)
    (filter_type : String) : List ℚ :=
  let nyquist : ℚ := 0.5 * SAMPLE_RATE
  let normal_cutoff := cutoff_hz / nyquist
  if normal_cutoff ≥ 1 then signal
  else if filter_type = "lowpass" then lowpassFilter normal_cutoff signal
  else if filter_type = "highpass" then highpassFilter normal_cutoff signal
  else signal

/-- Claim C10: `apply_filter` returns the input signal unchanged whenever the
cutoff frequency is at or above the Nyquist frequency `SAMPLE_RATE / 2`, for
every filter type (in particular both lowpass and highpass) and every
realization of the scipy filters. -/
theorem apply_filter_passthrough_above_nyquist
    (lowpassFilter highpassFilter : ℚ → List ℚ → List ℚ)
    (signal : List ℚ) (cutoff_hz resonance_q : ℚ) (filter_type : String)
    (h : SAMPLE_RATE / 2 ≤ cutoff_hz) :
    apply_filter lowpassFilter highpassFilter signal cutoff_hz resonance_q
      filter_type = signal := by
  unfold apply_filter
  rw [if_pos]
  rw [ge_iff_le, le_div_iff₀ (by norm_num [SAMPLE_RATE])]
  calc (1 : ℚ) * (0.5 * SAMPLE_RATE) = SAMPLE_RATE / 2 := by ring
    _ ≤ cutoff_hz := h

/-- Witness for C10: a concrete lowpass call at exactly the Nyquist frequency
(22050 Hz) passes the signal through even though the supplied scipy filter
would zero it. -/
theorem apply_filter_passthrough_witness :
    apply_filter (fun _ _ => []) (fun _ _ => []) [1, -1/2, 3/4] 22050
      (707/1000) "lowpass" = [1, -1/2, 3/4] :=
  apply_filter_passthrough_above_nyquist (fun _ _ => []) (fun _ _ => [])
    [1, -1/2, 3/4] 22050 (707/1000) "lowpass" (by norm_num [SAMPLE_RATE])

/-! ## Reverb effect (`effects.ReverbEffect`) -/

/-- One delay line of the reverb: its ring buffer, the cursor
(`delay_indices[j]`) and the one-pole damping filter state
(`lowpass_state[j]`).  The source keeps these in three parallel lists indexed
by the line number `j`; the embedding groups the per-line state. -/
structure DelayLine where
  buffer : List ℚ
  index : ℕ
  lowpass : ℚ
deriving DecidableEq

/-- `ReverbEffect`: the four parameters plus `enabled`, together with the
state derived by `_initialize_effect` (delay lines, feedback gain, damping
coefficient).  The open-ended `params` dict of the source is restricted to
the reverb's four documented parameters. -/
structure ReverbEffect where
  room_size : ℚ
  damping : ℚ
  wet_level : ℚ
  dry_level : ℚ
  enabled : Bool
  lines : List DelayLine
  feedback : ℚ
  damping_coeff : ℚ
deriving DecidableEq

/-- The `base_delays` table of `_initialize_effect`. -/
def reverbBaseDelays : List ℕ := [1116, 1188, 1277, 1356, 1422, 1491, 1557, 1617]

/-- `ReverbEffect.__init__` + `_initialize_effect`: scale the base delays by
`0.5 + 0.5·room_size` (`int()` truncation equals `⌊·⌋` on the non-negative
values produced here), zero the buffers, cursors and lowpass states, and
derive `feedback = 0.7 + 0.2·room_size` and `damping_coeff = 0.5·damping`. -/
def ReverbEffect.init (room_size damping wet_level dry_level : ℚ)
    (enabled : Bool) : ReverbEffect :=
  let room_scale := 0.5 + room_size * 0.5
  let delay_lengths := reverbBaseDelays.map (fun d => ((d : ℚ) * room_scale).floor.toNat)
  { room_size := room_size
    damping := damping
    wet_level := wet_level
    dry_level := dry_level
    enabled := enabled
    lines := delay_lengths.map (fun len => ⟨List.replicate len 0, 0, 0⟩)
    feedback := 0.7 + room_size * 0.2
    damping_coeff := damping * 0.5 }

/-- The inner `for j, (buffer, length) in enumerate(zip(...))` loop of
`ReverbEffect.process`, for one input sample: updates every delay line and
accumulates `reverb_sum += delayed * (0.125 + j*0.01)`. -/
def reverbLinesStep (damping_coeff fbGain sample : ℚ) :
    List DelayLine → ℕ → List DelayLine × ℚ
  | [], _ => ([], 0)
  | line :: restLines, j =>
      let delayed := line.buffer.getD line.index 0
      let lowpass := delayed * (1 - damping_coeff) + line.lowpass * damping_coeff
      let fb0 := lowpass * fbGain
      let fb := if fb0 > 0.8 then 0.8 else if fb0 < -0.8 then -0.8 else fb0
      let buffer := line.buffer.set line.index (sample + fb)
      let index := (line.index + 1) % line.buffer.length
      let r := reverbLinesStep damping_coeff fbGain sample restLines (j + 1)
      (⟨buffer, index, lowpass⟩ :: r.1, delayed * (0.125 + (j : ℚ) * 0.01) + r.2)

/-- The body of the per-sample loop of `ReverbEffect.process`: input limiting
to `±0.95` (`np.clip`), the delay-line pass, the `0.7` reverb level, the
dry/wet mix and the final `±0.95` limiting. -/
def reverbProcessSample (e : ReverbEffect) (x : ℚ) : ReverbEffect × ℚ :=
  let sample := min 0.95 (max (-0.95) x)
  let lr := reverbLinesStep e.damping_coeff e.feedback sample e.lines 0
  let reverb_sample := lr.2 * 0.7
  let out0 := e.dry_level * sample + e.wet_level * reverb_sample
  let out := if out0 > 0.95 then 0.95 else if out0 < -0.95 then -0.95 else out0
  ({ e with lines := lr.1 }, out)

/-- The sample loop of `ReverbEffect.process` over the whole buffer. -/
def reverbProcessGo (e : ReverbEffect) : List ℚ → ReverbEffect × List ℚ
  | [] => (e, [])
  | x :: xs =>
      let p := reverbProcessSample e x
      let q := reverbProcessGo p.1 xs
      (q.1, p.2 :: q.2)

/-- `ReverbEffect.process(audio_buffer)`: disabled effects pass the buffer
through untouched; otherwise every sample runs through the delay-line loop. -/
def ReverbEffect.process (e : ReverbEffect) (audio_buffer : List ℚ) :
    ReverbEffect × List ℚ :=
  if e.enabled then reverbProcessGo e audio_buffer else (e, audio_buffer)

theorem reverbProcessSample_dry (e : ReverbEffect) (x : ℚ)
    (hw : e.wet_level = 0) (hd : e.dry_level = 1) (hx : |x| ≤ 0.95) :
    (reverbProcessSample e x).2 = x := by
  obtain ⟨hx1, hx2⟩ := abs_le.mp hx
  unfold reverbProcessSample
  have hs : min 0.95 (max (-0.95) x) = x := by
    rw [max_eq_right hx1, min_eq_right hx2]
  simp only [hs, hw, hd, one_mul, zero_mul, add_zero]
  rw [if_neg (by linarith), if_neg (by linarith)]

/-- Claim C9: an enabled `ReverbEffect` with `wet_level = 0` and
`dry_level = 1` returns the input buffer unchanged for every input whose
samples all satisfy `|x| ≤ 0.95` (for any internal delay-line state). -/
theorem reverb_dry_identity (e : ReverbEffect) (buf : List ℚ)
    (hw : e.wet_level = 0) (hd : e.dry_level = 1) (he : e.enabled = true)
    (hb : ∀ x ∈ buf, |x| ≤ 0.95) :
    (ReverbEffect.process e buf).2 = buf := by
  rw [ReverbEffect.process, if_pos he]
  induction buf generalizing e with
  | nil => rfl
  | cons x xs ih =>
      have hx : |x| ≤ 0.95 := hb x (List.mem_cons_self x xs)
      rw [reverbProcessGo]
      have hkeep : (reverbProcessSample e x).1.wet_level = 0 ∧
          (reverbProcessSample e x).1.dry_level = 1 ∧
          (reverbProcessSample e x).1.enabled = true := by
        unfold reverbProcessSample
        exact ⟨hw, hd, he⟩
      rw [ih (reverbProcessSample e x).1 hkeep.1 hkeep.2.1 hkeep.2.2
        (fun y hy => hb y (List.mem_cons_of_mem x hy)),
        reverbProcessSample_dry e x hw hd hx]

/-- Witness for C9: a concrete enabled reverb (arbitrary small internal
state) with `wet_level = 0`, `dry_level = 1` maps the buffer
`[1/2, -19/20, 0]` to itself. -/
theorem reverb_dry_identity_witness :
    (ReverbEffect.process
      ⟨1/2, 1/2, 0, 1, true, [⟨[0, 0], 0, 0⟩, ⟨[1/4], 0, 0⟩], 9/10, 1/4⟩
      [1/2, -19/20, 0]).2 = [1/2, -19/20, 0] :=
  reverb_dry_identity _ _ rfl rfl rfl (by intro x hx; fin_cases hx <;> norm_num [abs_le])

/-! ## Composition data model (`music_structures.py`) -/

/-- `STEPS_PER_PATTERN = 64`. -/
def STEPS_PER_PATTERN : ℕ := 64

/-- `NoteEvent{note, velocity, duration}`.  `note` is `None` or a name such
as `'C4'`; `duration` is a Python `int`, in steps (`≥ 1` per the spec,
embedded as `ℕ`). -/
structure NoteEvent where
  note : Option String
  velocity : ℚ
  duration : ℕ
deriving DecidableEq

/-- Python truthiness of the optional note string: `None` and `''` are falsy. -/
def strTruthy : Option String → Bool
  | none => false
  | some s => s != ""

/-- `Pattern`: a list of optional note events, one per step. -/
structure Pattern where
  steps : List (Option NoteEvent)
deriving DecidableEq

/-- `Track{instrument_id, patterns, sequence}`. -/
structure Track where
  instrument_id : String
  patterns : List Pattern
  sequence : List ℕ
deriving DecidableEq

/-- `Composition{bpm, tracks}` (`bpm` is a Python `int`). -/
structure Composition where
  bpm : ℕ
  tracks : List Track
deriving DecidableEq

/-- `Composition.get_step_duration`: seconds per 16th-note step. -/
def Composition.get_step_duration (c : Composition) : ℚ :=
  let beats_per_second : ℚ := (c.bpm : ℚ) / 60
  let steps_per_second : ℚ := beats_per_second * 4
  1 / steps_per_second

/-! ## Voices and instruments (`synthesis.ActiveNote`, `synthesis.Instrument`) -/

/-- An oscillator spec dict `{'waveform': ..., 'amplitude': ...}`. -/
structure OscSpec where
  waveform : String
  amplitude : ℚ
deriving DecidableEq

/-- The per-oscillator state dict built in `ActiveNote.__init__`
(`waveform`, `amplitude`, `phase`; the legacy per-sample `generator`
closure is dead state for the vectorized path and is not modelled). -/
structure OscUnit where
  waveform : String
  amplitude : ℚ
  phase : ℚ
deriving DecidableEq

/-- `ActiveNote`: one sounding note.  The derived real-valued `frequency`
field (`note_to_freq(note_name_to_key_number(note_name))`) is consumed only
by the oscillator-block generator, which is embedded separately over `ℝ`
with the frequency as a parameter; it is omitted from this record. -/
structure ActiveNote where
  note_name : String
  velocity : ℚ
  oscillators : List OscUnit
  envelope : ADSREnvelope
deriving DecidableEq

/-- `ActiveNote.is_active`: the envelope has not reached `'off'`. -/
def ActiveNote.is_active (n : ActiveNote) : Bool :=
  n.envelope.state != EnvState.off

/-- `Instrument`.  The only effect kind in the source is the reverb, so the
effect chain is a list of `ReverbEffect`. -/
structure Instrument where
  name : String
  oscillators : List OscSpec
  attack : ℚ
  decay : ℚ
  sustain_level : ℚ
  release : ℚ
  filter_type : Option String
  filter_cutoff_hz : ℚ
  filter_resonance_q : ℚ
  effects : List ReverbEffect
  active_notes : List ActiveNote
deriving DecidableEq

/-- `ActiveNote.__init__(note_name, velocity, instrument)`: one oscillator
state per spec, each with phase `0`, and a fresh envelope started with
`note_on()`. -/
def ActiveNote.create (note_name : String) (velocity : ℚ) (inst : Instrument) :
    ActiveNote :=
  { note_name := note_name
    velocity := velocity
    oscillators := inst.oscillators.map (fun o => ⟨o.waveform, o.amplitude, 0⟩)
    envelope :=
      (ADSREnvelope.init inst.attack inst.decay inst.sustain_level inst.release).envNoteOn }

/-- `Instrument.note_on`: remove every existing note with the same name
(active or not), then append a fresh `ActiveNote`. -/
def Instrument.note_on (inst : Instrument) (note_name : String) (velocity : ℚ) :
    Instrument :=
  { inst with active_notes :=
      (inst.active_notes.filter (fun n => n.note_name != note_name))
        ++ [ActiveNote.create note_name velocity inst] }

/-- `Instrument.note_off`: forward `note_off` to every matching note; the
list itself is unchanged. -/
def Instrument.note_off (inst : Instrument) (note_name : String) : Instrument :=
  { inst with active_notes := inst.active_notes.map (fun n =>
      if n.note_name == note_name then { n with envelope := n.envelope.envNoteOff }
      else n) }

/-- Pointwise sum of two audio buffers (`output_buffer += note_output`). -/
def addBuf (a b : List ℚ) : List ℚ := List.zipWith (fun x y => x + y) a b

/-- The `for note in self.active_notes` loop of `Instrument.process`: active
notes are processed inside a `try`, their output added to the accumulator
and the (updated) note appended to `notes_to_keep`; a note whose processing
raises is not kept (the source additionally sets its envelope state to
`'off'`, on the discarded object); inactive notes are dropped.  The
fallible per-note computation `note.process(num_samples)` is the parameter
`noteProcess`, returning the updated note and its output buffer. -/
def processNotesLoop (noteProcess : ActiveNote → Except Unit (ActiveNote × List ℚ)) :
    List ActiveNote × List ℚ → List ActiveNote → List ActiveNote × List ℚ
  | acc, [] => acc
  | acc, note :: rest =>
      if note.is_active then
        match noteProcess note with
        | Except.ok r => processNotesLoop noteProcess (acc.1 ++ [r.1], addBuf acc.2 r.2) rest
        | Except.error _ => processNotesLoop noteProcess acc rest
      else processNotesLoop noteProcess acc rest

/-- The effect-chain loop of `Instrument.process`: each effect is run inside
a `try`; on failure that effect is skipped for the block (`pass`) and the
buffer and the chain are left as they were.  The fallible
`effect.process(output_buffer)` is the parameter `effectProcess`. -/
def processEffectsLoop
    (effectProcess : ReverbEffect → List ℚ → Except Unit (ReverbEffect × List ℚ)) :
    List ReverbEffect → List ℚ → List ReverbEffect × List ℚ
  | [], buf => ([], buf)
  | e :: rest, buf =>
      match effectProcess e buf with
      | Except.ok r =>
          let q := processEffectsLoop effectProcess rest r.2
          (r.1 :: q.1, q.2)
      | Except.error _ =>
          let q := processEffectsLoop effectProcess rest buf
          (e :: q.1, q.2)

/-- `Instrument.process(num_samples)`: mix the active notes, drop the ones
that became inactive or raised, run the instrument filter inside a `try`
(failure keeps the unfiltered buffer), then the effect chain.  The fallible
`apply_filter` call is the parameter `filterStep`. -/
def Instrument.process (inst : Instrument)
    (noteProcess : ActiveNote → Except Unit (ActiveNote × List ℚ))
    (effectProcess : ReverbEffect → List ℚ → Except Unit (ReverbEffect × List ℚ))
    (filterStep : List ℚ → Except Unit (List ℚ))
    (num_samples : ℕ) : Instrument × List ℚ :=
  let r := processNotesLoop noteProcess ([], List.replicate num_samples 0) inst.active_notes
  let buf1 := r.2
  let buf2 :=
    if strTruthy inst.filter_type ∧ 0 < buf1.length then
      match filterStep buf1 with
      | Except.ok b => b
      | Except.error _ => buf1
    else buf1
  let er :=
    if inst.effects ≠ [] ∧ 0 < buf2.length then
      processEffectsLoop effectProcess inst.effects buf2
    else (inst.effects, buf2)
  ({ inst with active_notes := r.1, effects := er.1 }, er.2)

/-! ## Structural record (serialization, `to_dict`/`from_dict`) -/

/-- The dict produced by `NoteEvent.to_dict`: `note` and `velocity` always,
`duration` only when `> 1`. -/
structure NoteEventDict where
  note : Option String
  velocity : ℚ
  duration : Option ℕ
deriving DecidableEq

/-- `NoteEvent.to_dict`. -/
def NoteEvent.to_dict (e : NoteEvent) : NoteEventDict :=
  { note := e.note
    velocity := e.velocity
    duration := if 1 < e.duration then some e.duration else none }

/-- `NoteEvent.from_dict` on a dict carrying the keys `to_dict` writes (plus
possibly extra keys such as `step`, which the source filters out): a missing
`duration` defaults to `1`. -/
def NoteEvent.from_dict (d : NoteEventDict) : NoteEvent :=
  { note := d.note
    velocity := d.velocity
    duration := d.duration.getD 1 }

/-- One entry of the `notes` list of `Track.to_dict`: the note event dict
with the extra `step` key. -/
structure TrackNoteDict where
  event : NoteEventDict
  step : ℕ
deriving DecidableEq

/-- The dict produced by `Track.to_dict` (the LLM-facing format). -/
structure TrackDict where
  instrument_name : String
  notes : List TrackNoteDict
deriving DecidableEq

/-- The `for step_index, note_event in enumerate(self.patterns[0].steps)`
loop of `Track.to_dict`, with the running `step_index` made explicit:
occupied steps whose event has a truthy note are serialized with their
index. -/
def collectTrackNotes : ℕ → List (Option NoteEvent) → List TrackNoteDict
  | _, [] => []
  | idx, none :: rest => collectTrackNotes (idx + 1) rest
  | idx, some ev :: rest =>
      if strTruthy ev.note then
        ⟨ev.to_dict, idx⟩ :: collectTrackNotes (idx + 1) rest
      else collectTrackNotes (idx + 1) rest

/-- `Track.to_dict`: only `patterns[0]` is serialized ("Assuming one pattern
per track for now"); the `sequence` is not serialized at all. -/
def Track.to_dict (t : Track) : TrackDict :=
  { instrument_name := t.instrument_id
    notes :=
      match t.patterns with
      | [] => []
      | p :: _ => collectTrackNotes 0 p.steps }

/-- The body of the `for note_data in notes` loop of `Track.from_dict`:
notes whose step is inside `[0, STEPS_PER_PATTERN)` are written into the
fresh pattern. -/
def setStep (steps : List (Option NoteEvent)) (nd : TrackNoteDict) :
    List (Option NoteEvent) :=
  if nd.step < STEPS_PER_PATTERN then
    steps.set nd.step (some (NoteEvent.from_dict nd.event))
  else steps

/-- `Track.from_dict`: a single fresh `STEPS_PER_PATTERN`-long pattern is
populated from the `notes` list, and the sequence is always `[0]`. -/
def Track.from_dict (d : TrackDict) : Track :=
  { instrument_id := d.instrument_name
    patterns := [⟨d.notes.foldl setStep (List.replicate STEPS_PER_PATTERN none)⟩]
    sequence := [0] }

/-- The dict produced by `Composition.to_dict`. -/
structure CompositionDict where
  bpm : ℕ
  tracks : List TrackDict
deriving DecidableEq

/-- `Composition.to_dict`. -/
def Composition.to_dict (c : Composition) : CompositionDict :=
  { bpm := c.bpm, tracks := c.tracks.map Track.to_dict }

/-- `Composition.from_dict`. -/
def Composition.from_dict (d : CompositionDict) : Composition :=
  { bpm := d.bpm, tracks := d.tracks.map Track.from_dict }

/-- The dict produced by `BaseEffect.to_dict` for a reverb: `type` and
`enabled` always; each of the four parameters only when it differs from its
default (`room_size 0.5`, `damping 0.5`, `wet_level 0.3`, `dry_level 0.7`). -/
structure EffectDict where
  type : String
  enabled : Bool
  room_size : Option ℚ
  damping : Option ℚ
  wet_level : Option ℚ
  dry_level : Option ℚ
deriving DecidableEq

/-- `BaseEffect.to_dict` on a `ReverbEffect`. -/
def ReverbEffect.to_dict (e : ReverbEffect) : EffectDict :=
  { type := "reverb"
    enabled := e.enabled
    room_size := if e.room_size ≠ 0.5 then some e.room_size else none
    damping := if e.damping ≠ 0.5 then some e.damping else none
    wet_level := if e.wet_level ≠ 0.3 then some e.wet_level else none
    dry_level := if e.dry_level ≠ 0.7 then some e.dry_level else none }

/-- `ReverbEffect.from_dict`: missing parameters fall back to the defaults
and the delay-line state is rebuilt by `_initialize_effect`. -/
def ReverbEffect.from_dict (d : EffectDict) : ReverbEffect :=
  ReverbEffect.init (d.room_size.getD 0.5) (d.damping.getD 0.5)
    (d.wet_level.getD 0.3) (d.dry_level.getD 0.7) d.enabled

/-- `effects.create_effect_from_dict` / `BaseEffect.from_dict`: an unknown
`type` raises `ValueError`. -/
def create_effect_from_dict (d : EffectDict) : Except Unit ReverbEffect :=
  if d.type = "reverb" then Except.ok (ReverbEffect.from_dict d)
  else Except.error ()

/-- `effects.create_effects_from_list`: entries whose creation raises are
skipped with a warning. -/
def create_effects_from_list (ds : List EffectDict) : List ReverbEffect :=
  ds.filterMap (fun d => (create_effect_from_dict d).toOption)

/-- The dict produced by `Instrument.to_dict`: all parameter keys always,
the `effects` key only when the chain is nonempty.  (`Instrument.from_dict`
also accepts a legacy `waveform` key in place of `oscillators`; that path is
outside the round-trip claims and not modelled.) -/
structure InstrumentDict where
  name : String
  oscillators : List OscSpec
  attack : ℚ
  decay : ℚ
  sustain_level : ℚ
  release : ℚ
  filter_type : Option String
  filter_cutoff_hz : ℚ
  filter_resonance_q : ℚ
  effects : Option (List EffectDict)
deriving DecidableEq

/-- `Instrument.to_dict`. -/
def Instrument.to_dict (inst : Instrument) : InstrumentDict :=
  { name := inst.name
    oscillators := inst.oscillators
    attack := inst.attack
    decay := inst.decay
    sustain_level := inst.sustain_level
    release := inst.release
    filter_type := inst.filter_type
    filter_cutoff_hz := inst.filter_cutoff_hz
    filter_resonance_q := inst.filter_resonance_q
    effects :=
      if inst.effects ≠ [] then some (inst.effects.map ReverbEffect.to_dict)
      else none }

/-- `Instrument.from_dict`: the voice list starts empty; effects are rebuilt
through `create_effects_from_list`. -/
def Instrument.from_dict (d : InstrumentDict) : Instrument :=
  { name := d.name
    oscillators := d.oscillators
    attack := d.attack
    decay := d.decay
    sustain_level := d.sustain_level
    release := d.release
    filter_type := d.filter_type
    filter_cutoff_hz := d.filter_cutoff_hz
    filter_resonance_q := d.filter_resonance_q
    effects := create_effects_from_list (d.effects.getD [])
    active_notes := [] }

theorem noteEvent_roundtrip (ev : NoteEvent) (h : 1 ≤ ev.duration) :
    NoteEvent.from_dict ev.to_dict = ev := by
  cases ev with
  | mk note velocity duration =>
      unfold NoteEvent.from_dict NoteEvent.to_dict
      by_cases h1 : 1 < duration
      · simp [h1]
      · have h2 : duration = 1 := by simp only at h; omega
        simp [h1, h2]

theorem take_set (l : List α) (n : ℕ) (a : α) : (l.set n a).take n = l.take n := by
  rw [List.set_take]
  exact List.set_eq_of_length_le (by simp [List.length_take])

/-- A pattern step survives the LLM-format serialization: it is empty, or it
holds an event with a truthy note name and a duration of at least one step. -/
def stepOk : Option NoteEvent → Bool
  | none => true
  | some ev => strTruthy ev.note && decide (1 ≤ ev.duration)

theorem foldl_setStep_collect (steps : List (Option NoteEvent)) :
    ∀ (idx : ℕ) (base : List (Option NoteEvent)),
    base.length = STEPS_PER_PATTERN →
    idx + steps.length = STEPS_PER_PATTERN →
    (∀ j, j < steps.length → steps.getD j none = none → base.getD (idx + j) none = none) →
    (∀ s ∈ steps, stepOk s = true) →
    List.foldl setStep base (collectTrackNotes idx steps) = base.take idx ++ steps := by
  induction steps with
  | nil =>
      intro idx base hlen hidx _ _
      simp only [List.length_nil, Nat.add_zero] at hidx
      simp only [collectTrackNotes, List.foldl_nil, List.append_nil]
      exact (List.take_of_length_le (by omega)).symm
  | cons hd rest ih =>
      intro idx base hlen hidx hnone htruthy
      simp only [List.length_cons] at hidx
      have hidx1 : idx < base.length := by omega
      cases hd with
      | none =>
          have ihne : ∀ j, j < rest.length → rest.getD j none = none →
              base.getD (idx + 1 + j) none = none := by
            intro j hj hz
            have h0 := hnone (j + 1) (by simp only [List.length_cons]; omega)
              (by simpa using hz)
            rw [show idx + 1 + j = idx + (j + 1) by omega]
            exact h0
          have hb0 : base[idx]? = some none := by
            have hb := hnone 0 (by simp only [List.length_cons]; omega) (by simp)
            rw [Nat.add_zero, List.getD_eq_getElem?_getD,
              List.getElem?_eq_getElem hidx1] at hb
            rw [List.getElem?_eq_getElem hidx1]
            simpa using hb
          simp only [collectTrackNotes]
          rw [ih (idx + 1) base hlen (by omega) ihne
            (fun s hs => htruthy s (List.mem_cons_of_mem _ hs))]
          have hsucc : base.take (idx + 1) = base.take idx ++ [(none : Option NoteEvent)] := by
            rw [List.take_succ, hb0]
            rfl
          rw [hsucc, List.append_assoc]
          rfl
      | some ev =>
          have hok := htruthy (some ev) (List.mem_cons_self _ _)
          simp only [stepOk, Bool.and_eq_true, decide_eq_true_eq] at hok
          obtain ⟨ht, hd1⟩ := hok
          have hset : setStep base ⟨ev.to_dict, idx⟩ = base.set idx (some ev) := by
            unfold setStep
            rw [if_pos (show idx < STEPS_PER_PATTERN by omega), noteEvent_roundtrip ev hd1]
          simp only [collectTrackNotes, ht, if_true, List.foldl_cons, hset]
          have ihne : ∀ j, j < rest.length → rest.getD j none = none →
              (base.set idx (some ev)).getD (idx + 1 + j) none = none := by
            intro j hj hz
            rw [List.getD_eq_getElem?_getD,
              List.getElem?_set_ne (show idx ≠ idx + 1 + j by omega),
              ← List.getD_eq_getElem?_getD]
            have h0 := hnone (j + 1) (by simp only [List.length_cons]; omega)
              (by simpa using hz)
            rw [show idx + 1 + j = idx + (j + 1) by omega]
            exact h0
          rw [ih (idx + 1) (base.set idx (some ev)) (by simpa using hlen) (by omega) ihne
            (fun s hs => htruthy s (List.mem_cons_of_mem _ hs))]
          have hts : (base.set idx (some ev)).take (idx + 1)
              = base.take idx ++ [some ev] := by
            rw [List.take_succ, take_set, List.getElem?_set_self hidx1]
            rfl
          rw [hts, List.append_assoc]
          rfl

theorem track_roundtrip (t : Track) (hseq : t.sequence = [0])
    (hpat : ∃ p, t.patterns = [p] ∧ p.steps.length = STEPS_PER_PATTERN ∧
      ∀ s ∈ p.steps, stepOk s = true) :
    Track.from_dict t.to_dict = t := by
  obtain ⟨p, hp, hplen, hok⟩ := hpat
  cases t with
  | mk iid patterns sequence =>
      simp only at hp hseq
      subst hp
      subst hseq
      unfold Track.from_dict Track.to_dict
      simp only
      have hfold := foldl_setStep_collect p.steps 0
        (List.replicate STEPS_PER_PATTERN none) (by simp) (by simpa using hplen)
        (fun j hj _ => by
          rw [List.getD_eq_getElem?_getD, List.getElem?_replicate]
          by_cases hlt : j < STEPS_PER_PATTERN <;> simp [hlt])
        hok
      simp only [List.take_zero, List.nil_append] at hfold
      rw [hfold]

theorem reverb_dict_roundtrip (e : ReverbEffect) :
    ReverbEffect.from_dict e.to_dict
      = ReverbEffect.init e.room_size e.damping e.wet_level e.dry_level e.enabled := by
  have h1 : ∀ (x d : ℚ), (if x ≠ d then some x else none).getD d = x := by
    intro x d
    by_cases h : x = d <;> simp [h]
  unfold ReverbEffect.from_dict ReverbEffect.to_dict
  rw [h1, h1, h1, h1]

theorem create_effects_roundtrip (l : List ReverbEffect)
    (h : ∀ e ∈ l,
      e = ReverbEffect.init e.room_size e.damping e.wet_level e.dry_level e.enabled) :
    create_effects_from_list (l.map ReverbEffect.to_dict) = l := by
  induction l with
  | nil => rfl
  | cons e rest ih =>
      have hcreate : (create_effect_from_dict e.to_dict).toOption = some e := by
        unfold create_effect_from_dict
        rw [if_pos (show e.to_dict.type = "reverb" from rfl)]
        rw [reverb_dict_roundtrip, ← h e (List.mem_cons_self _ _)]
        rfl
      simp only [List.map_cons, create_effects_from_list, List.filterMap_cons, hcreate]
      have := ih (fun x hx => h x (List.mem_cons_of_mem _ hx))
      unfold create_effects_from_list at this
      rw [this]

theorem composition_roundtrip (c : Composition)
    (h : ∀ t ∈ c.tracks, t.sequence = [0] ∧
      ∃ p, t.patterns = [p] ∧ p.steps.length = STEPS_PER_PATTERN ∧
        ∀ s ∈ p.steps, stepOk s = true) :
    Composition.from_dict c.to_dict = c := by
  cases c with
  | mk bpm tracks =>
      unfold Composition.from_dict Composition.to_dict
      simp only [List.map_map]
      congr 1
      simp only at h
      calc List.map (Track.from_dict ∘ Track.to_dict) tracks
          = List.map id tracks :=
            List.map_congr_left (fun t ht => track_roundtrip t (h t ht).1 (h t ht).2)
        _ = tracks := List.map_id _

/-- The parameters of a reverb effect:
`(room_size, damping, wet_level, dry_level, enabled)` — the spec part of
the effect, as opposed to the private delay-line state. -/
def effectParams (e : ReverbEffect) : ℚ × ℚ × ℚ × ℚ × Bool :=
  (e.room_size, e.damping, e.wet_level, e.dry_level, e.enabled)

theorem create_effects_params (l : List ReverbEffect) :
    (create_effects_from_list (l.map ReverbEffect.to_dict)).map effectParams
      = l.map effectParams := by
  induction l with
  | nil => rfl
  | cons e rest ih =>
      have hcreate : (create_effect_from_dict e.to_dict).toOption
          = some (ReverbEffect.init e.room_size e.damping e.wet_level
              e.dry_level e.enabled) := by
        unfold create_effect_from_dict
        rw [if_pos (show e.to_dict.type = "reverb" from rfl), reverb_dict_roundtrip]
        rfl
      simp only [List.map_cons, create_effects_from_list, List.filterMap_cons,
        hcreate]
      congr 1

theorem instrument_params_roundtrip (inst : Instrument) :
    (Instrument.from_dict inst.to_dict).effects.map effectParams
      = inst.effects.map effectParams := by
  unfold Instrument.from_dict Instrument.to_dict
  simp only
  by_cases he : inst.effects = []
  · rw [he]
    simp [create_effects_from_list]
  · rw [if_pos he, Option.getD_some]
    exact create_effects_params inst.effects

/-- Claim C7 (amended): (a) the composition side of the round trip is
lossless exactly on the serializable fragment — for every composition in
the LLM format (each track carries a single pattern of `STEPS_PER_PATTERN`
steps, sequence `[0]`, and every occupied step holds a truthy note name
with duration ≥ 1), deserializing the serialized record reproduces the
composition exactly, in particular identical note, velocity and duration at
every step; the unrestricted composition claim is refuted by
`track_to_dict_drops_second_pattern` below, because `Track.to_dict`
serializes only `patterns[0]`.  (b) The instrument side needs no
restriction: for *every* instrument, serializing and deserializing
reproduces every instrument parameter — name, oscillators, attack, decay,
sustain_level, release, filter type/cutoff/resonance — and the parameters
of every effect (`room_size`, `damping`, `wet_level`, `dry_level`,
`enabled`), in order. -/
theorem structural_record_roundtrip :
    (∀ c : Composition,
      (∀ t ∈ c.tracks, t.sequence = [0] ∧
        ∃ p, t.patterns = [p] ∧ p.steps.length = STEPS_PER_PATTERN ∧
          ∀ s ∈ p.steps, stepOk s = true) →
      Composition.from_dict c.to_dict = c) ∧
    (∀ inst : Instrument,
      (Instrument.from_dict inst.to_dict).name = inst.name ∧
      (Instrument.from_dict inst.to_dict).oscillators = inst.oscillators ∧
      (Instrument.from_dict inst.to_dict).attack = inst.attack ∧
      (Instrument.from_dict inst.to_dict).decay = inst.decay ∧
      (Instrument.from_dict inst.to_dict).sustain_level = inst.sustain_level ∧
      (Instrument.from_dict inst.to_dict).release = inst.release ∧
      (Instrument.from_dict inst.to_dict).filter_type = inst.filter_type ∧
      (Instrument.from_dict inst.to_dict).filter_cutoff_hz = inst.filter_cutoff_hz ∧
      (Instrument.from_dict inst.to_dict).filter_resonance_q = inst.filter_resonance_q ∧
      (Instrument.from_dict inst.to_dict).effects.map effectParams
        = inst.effects.map effectParams) :=
  ⟨fun c h => composition_roundtrip c h,
   fun inst => ⟨rfl, rfl, rfl, rfl, rfl, rfl, rfl, rfl, rfl,
     instrument_params_roundtrip inst⟩⟩

/-- A concrete one-track, one-pattern composition used by the C7 witness. -/
def witnessComposition : Composition :=
  ⟨120, [⟨"kick",
    [⟨(List.replicate STEPS_PER_PATTERN (none : Option NoteEvent)).set 2
        (some ⟨some "C4", 4/5, 2⟩)⟩], [0]⟩]⟩

/-- A concrete instrument used by the C7 witness: it carries a live voice, a
filter, and a reverb whose delay-line state has evolved away from its
initial value — the parameter round trip holds regardless. -/
def witnessInstrument : Instrument :=
  ⟨"kick", [⟨"sine", 1⟩], 1/100, 1/10, 7/10, 1/5, some "lowpass", 8000, 707/1000,
    [⟨1/2, 1/2, 3/10, 7/10, true, [⟨[1/4], 0, 1/8⟩], 9/10, 1/4⟩],
    [⟨"C4", 1, [⟨"sine", 1, 0⟩], ⟨1, 1, 1/5, 0, 7/10, EnvState.attack, 1/2⟩⟩]⟩

/-- Witness for C7: the round trip reproduces the concrete composition
above, and the parameters of the concrete instrument above. -/
theorem structural_record_roundtrip_witness :
    Composition.from_dict witnessComposition.to_dict = witnessComposition ∧
    (Instrument.from_dict witnessInstrument.to_dict).attack
      = witnessInstrument.attack ∧
    (Instrument.from_dict witnessInstrument.to_dict).effects.map effectParams
      = witnessInstrument.effects.map effectParams :=
  ⟨structural_record_roundtrip.1 witnessComposition
    (by
      intro t ht
      simp only [witnessComposition, List.mem_singleton] at ht
      subst ht
      exact ⟨rfl, _, rfl, by decide, by decide⟩),
   (structural_record_roundtrip.2 witnessInstrument).2.2.1,
   (structural_record_roundtrip.2 witnessInstrument).2.2.2.2.2.2.2.2.2⟩

/-- A composition whose only track has a second pattern holding a note, and
plays it (`sequence = [1]`). -/
def lostComposition : Composition :=
  ⟨120, [⟨"kick",
    [⟨List.replicate STEPS_PER_PATTERN (none : Option NoteEvent)⟩,
     ⟨(List.replicate STEPS_PER_PATTERN (none : Option NoteEvent)).set 0
        (some ⟨some "C4", 1, 1⟩)⟩], [1]⟩]⟩

/-- Counterexample to C7 as stated: serializing `lostComposition` and
deserializing it back does not reproduce the pattern contents — the second
pattern (the one actually played) is dropped, because `Track.to_dict`
serializes only `patterns[0]`. -/
theorem track_to_dict_drops_second_pattern :
    (Composition.from_dict lostComposition.to_dict).tracks.map
        (fun t => t.patterns.map Pattern.steps)
      ≠ lostComposition.tracks.map (fun t => t.patterns.map Pattern.steps) := by
  decide

/-! ## Failure containment in `Instrument.process` (claim C3) -/

theorem processNotesLoop_skip
    (np : ActiveNote → Except Unit (ActiveNote × List ℚ)) (bad : ActiveNote)
    (post : List ActiveNote) (hbad : np bad = Except.error ()) :
    ∀ (pre : List ActiveNote) (acc : List ActiveNote × List ℚ),
    processNotesLoop np acc (pre ++ bad :: post)
      = processNotesLoop np acc (pre ++ post) := by
  intro pre
  induction pre with
  | nil =>
      intro acc
      simp only [List.nil_append]
      conv_lhs => unfold processNotesLoop
      by_cases ha : bad.is_active
      · simp [ha, hbad]
      · simp [ha]
  | cons p pre' ih =>
      intro acc
      simp only [List.cons_append]
      unfold processNotesLoop
      by_cases ha : p.is_active
      · simp only [ha, if_true]
        cases hr : np p with
        | ok r => exact ih _
        | error e => exact ih _
      · simp only [ha, if_false]
        exact ih _

theorem processEffectsLoop_append
    (ep : ReverbEffect → List ℚ → Except Unit (ReverbEffect × List ℚ))
    (l1 l2 : List ReverbEffect) :
    ∀ buf : List ℚ,
    processEffectsLoop ep (l1 ++ l2) buf
      = ((processEffectsLoop ep l1 buf).1
          ++ (processEffectsLoop ep l2 (processEffectsLoop ep l1 buf).2).1,
         (processEffectsLoop ep l2 (processEffectsLoop ep l1 buf).2).2) := by
  induction l1 with
  | nil =>
      intro buf
      simp [processEffectsLoop]
  | cons e l1' ih =>
      intro buf
      cases hr : ep e buf with
      | ok r =>
          have hcons : processEffectsLoop ep (e :: l1') buf
              = (r.1 :: (processEffectsLoop ep l1' r.2).1,
                 (processEffectsLoop ep l1' r.2).2) := by
            conv_lhs => unfold processEffectsLoop
            simp only [hr]
          have hconsL : processEffectsLoop ep ((e :: l1') ++ l2) buf
              = (r.1 :: (processEffectsLoop ep (l1' ++ l2) r.2).1,
                 (processEffectsLoop ep (l1' ++ l2) r.2).2) := by
            simp only [List.cons_append]
            conv_lhs => unfold processEffectsLoop
            simp only [hr]
          rw [hconsL, hcons, ih r.2]
          simp
      | error err =>
          have hcons : processEffectsLoop ep (e :: l1') buf
              = (e :: (processEffectsLoop ep l1' buf).1,
                 (processEffectsLoop ep l1' buf).2) := by
            conv_lhs => unfold processEffectsLoop
            simp only [hr]
          have hconsL : processEffectsLoop ep ((e :: l1') ++ l2) buf
              = (e :: (processEffectsLoop ep (l1' ++ l2) buf).1,
                 (processEffectsLoop ep (l1' ++ l2) buf).2) := by
            simp only [List.cons_append]
            conv_lhs => unfold processEffectsLoop
            simp only [hr]
          rw [hconsL, hcons, ih buf]
          simp

theorem processEffectsLoop_error_cons
    (ep : ReverbEffect → List ℚ → Except Unit (ReverbEffect × List ℚ))
    (bad : ReverbEffect) (post : List ReverbEffect) (buf : List ℚ)
    (hbad : ∀ b : List ℚ, ep bad b = Except.error ()) :
    processEffectsLoop ep (bad :: post) buf
      = (bad :: (processEffectsLoop ep post buf).1,
         (processEffectsLoop ep post buf).2) := by
  conv_lhs => unfold processEffectsLoop
  simp only [hbad buf]

/-- The output-buffer half of the effect stage of `Instrument.process`
(the `if self.effects and len(output_buffer) > 0` guard around the chain)
is unchanged by deleting an always-raising effect from the chain. -/
theorem effects_stage_skip
    (ep : ReverbEffect → List ℚ → Except Unit (ReverbEffect × List ℚ))
    (pre post : List ReverbEffect) (bad : ReverbEffect)
    (hbad : ∀ b : List ℚ, ep bad b = Except.error ()) (B : List ℚ) :
    (if pre ++ bad :: post ≠ [] ∧ 0 < B.length then
        processEffectsLoop ep (pre ++ bad :: post) B
      else (pre ++ bad :: post, B)).2
    = (if pre ++ post ≠ [] ∧ 0 < B.length then
        processEffectsLoop ep (pre ++ post) B
      else (pre ++ post, B)).2 := by
  by_cases hlen : 0 < B.length
  · rw [if_pos ⟨by simp, hlen⟩]
    rw [processEffectsLoop_append ep pre (bad :: post) B,
      processEffectsLoop_error_cons ep bad post _ hbad]
    by_cases hpp : pre ++ post = []
    · rw [if_neg (fun hc => hc.1 hpp)]
      obtain ⟨hpre, hpost⟩ := List.append_eq_nil.mp hpp
      subst hpre
      subst hpost
      rfl
    · rw [if_pos ⟨hpp, hlen⟩, processEffectsLoop_append ep pre post B]
  · rw [if_neg (fun hc => hlen hc.2), if_neg (fun hc => hlen hc.2)]

/-- Claim C3 (amended): exceptions are caught per-unit inside
`Instrument.process`, each failing unit's output is omitted for that block,
and every *other* unit is processed exactly as if the failing unit were
absent — but the failing unit's fate differs by kind.  (1) A voice whose
processing raises contributes nothing and is permanently removed:
`process` on an instrument whose voice list contains a raising voice (among
arbitrary other voices, with arbitrary effects and filter) equals `process`
on the same instrument with that voice deleted — so, contrary to the claim
as stated, the voice does not participate in the next call
(`failing_voice_is_removed`).  (2) In the effect chain, a raising effect is
skipped — the buffer reaches the effects after it unchanged — yet it is
retained in place in the chain, so it does participate again in the next
call.  (3) Consequently the audio block `Instrument.process` returns with a
raising effect in the chain equals the block returned with that effect
absent.  All three are equalities of total functions: no exception escapes
`Instrument.process`. -/
theorem instrument_process_per_unit_containment :
    (∀ (inst : Instrument) (np : ActiveNote → Except Unit (ActiveNote × List ℚ))
        (ep : ReverbEffect → List ℚ → Except Unit (ReverbEffect × List ℚ))
        (fs : List ℚ → Except Unit (List ℚ)) (n : ℕ)
        (pre post : List ActiveNote) (bad : ActiveNote),
      inst.active_notes = pre ++ bad :: post →
      np bad = Except.error () →
      inst.process np ep fs n
        = Instrument.process { inst with active_notes := pre ++ post } np ep fs n) ∧
    (∀ (ep : ReverbEffect → List ℚ → Except Unit (ReverbEffect × List ℚ))
        (pre post : List ReverbEffect) (bad : ReverbEffect) (buf : List ℚ),
      (∀ b : List ℚ, ep bad b = Except.error ()) →
      processEffectsLoop ep (pre ++ bad :: post) buf
        = ((processEffectsLoop ep pre buf).1
            ++ bad :: (processEffectsLoop ep post (processEffectsLoop ep pre buf).2).1,
           (processEffectsLoop ep post (processEffectsLoop ep pre buf).2).2)) ∧
    (∀ (inst : Instrument) (np : ActiveNote → Except Unit (ActiveNote × List ℚ))
        (ep : ReverbEffect → List ℚ → Except Unit (ReverbEffect × List ℚ))
        (fs : List ℚ → Except Unit (List ℚ)) (n : ℕ)
        (pre post : List ReverbEffect) (bad : ReverbEffect),
      inst.effects = pre ++ bad :: post →
      (∀ b : List ℚ, ep bad b = Except.error ()) →
      (inst.process np ep fs n).2
        = (Instrument.process { inst with effects := pre ++ post } np ep fs n).2) := by
  refine ⟨?_, ?_, ?_⟩
  · intro inst np ep fs n pre post bad hnotes hbad
    cases inst with
    | mk nm osc a d sl r ft fc fq effs notes =>
        simp only at hnotes
        subst hnotes
        unfold Instrument.process
        rw [processNotesLoop_skip np bad post hbad]
  · intro ep pre post bad buf hbad
    rw [processEffectsLoop_append ep pre (bad :: post) buf,
      processEffectsLoop_error_cons ep bad post _ hbad]
  · intro inst np ep fs n pre post bad heff hbad
    cases inst with
    | mk nm osc a d sl r ft fc fq effs notes =>
        simp only at heff
        subst heff
        unfold Instrument.process
        exact effects_stage_skip ep pre post bad hbad _

/-- A concrete instrument holding one live voice, used by the C3
counterexample. -/
def failingVoiceInstrument : Instrument :=
  ⟨"synth", [⟨"sine", 1⟩], 1/100, 1/10, 7/10, 1/5, none, 20000, 707/1000,
    [ReverbEffect.init (1/2) (1/2) (3/10) (7/10) true],
    [⟨"C4", 1, [⟨"sine", 1, 0⟩],
      ⟨100/44100, 3/(10 * 44100), 1/5, 0, 7/10, EnvState.attack, 1/2⟩⟩]⟩

/-- A live voice whose processing succeeds in the C3 witness. -/
def c3GoodNote : ActiveNote :=
  ⟨"C4", 1, [⟨"sine", 1, 0⟩], ⟨1, 1, 1/5, 0, 7/10, EnvState.attack, 0⟩⟩

/-- A live voice whose processing raises in the C3 witness. -/
def c3BadNote : ActiveNote :=
  ⟨"E4", 1, [⟨"sine", 1, 0⟩], ⟨1, 1, 1/5, 0, 7/10, EnvState.attack, 0⟩⟩

/-- An effect whose processing succeeds in the C3 witness. -/
def c3GoodEffect : ReverbEffect := ReverbEffect.init (1/2) (1/2) (3/10) (7/10) true

/-- An effect whose processing raises in the C3 witness. -/
def c3BadEffect : ReverbEffect := ⟨1/2, 1/2, 3/10, 7/10, false, [], 9/10, 1/4⟩

/-- An instrument holding one succeeding and one raising voice, and one
succeeding and one raising effect. -/
def c3Instrument : Instrument :=
  ⟨"synth", [⟨"sine", 1⟩], 1/100, 1/10, 7/10, 1/5, none, 20000, 707/1000,
    [c3GoodEffect, c3BadEffect], [c3GoodNote, c3BadNote]⟩

/-- A per-voice computation that raises exactly on the pitch `E4`. -/
def c3NoteProcess : ActiveNote → Except Unit (ActiveNote × List ℚ) :=
  fun note => if note.note_name == "E4" then Except.error ()
    else Except.ok (note, List.replicate 2 (1/2))

/-- A per-effect computation that raises exactly on disabled effects. -/
def c3EffectProcess : ReverbEffect → List ℚ → Except Unit (ReverbEffect × List ℚ) :=
  fun e buf => if e.enabled then Except.ok (e, buf) else Except.error ()

/-- Witness for C3's amended theorem: one raising voice beside a succeeding
one, and one raising effect beside a succeeding one. -/
theorem instrument_process_per_unit_containment_witness :
    (c3Instrument.process c3NoteProcess c3EffectProcess (fun b => Except.ok b) 2
      = Instrument.process { c3Instrument with active_notes := [c3GoodNote] }
          c3NoteProcess c3EffectProcess (fun b => Except.ok b) 2) ∧
    (processEffectsLoop c3EffectProcess ([c3GoodEffect] ++ c3BadEffect :: []) [1/2, 1/4]
      = ((processEffectsLoop c3EffectProcess [c3GoodEffect] [1/2, 1/4]).1
          ++ c3BadEffect :: (processEffectsLoop c3EffectProcess []
              (processEffectsLoop c3EffectProcess [c3GoodEffect] [1/2, 1/4]).2).1,
         (processEffectsLoop c3EffectProcess []
            (processEffectsLoop c3EffectProcess [c3GoodEffect] [1/2, 1/4]).2).2)) ∧
    ((c3Instrument.process c3NoteProcess c3EffectProcess (fun b => Except.ok b) 2).2
      = (Instrument.process { c3Instrument with effects := [c3GoodEffect] ++ [] }
          c3NoteProcess c3EffectProcess (fun b => Except.ok b) 2).2) :=
  ⟨instrument_process_per_unit_containment.1 c3Instrument c3NoteProcess
      c3EffectProcess (fun b => Except.ok b) 2 [c3GoodNote] [] c3BadNote rfl rfl,
   instrument_process_per_unit_containment.2.1 c3EffectProcess [c3GoodEffect] []
      c3BadEffect [1/2, 1/4] (fun b => rfl),
   instrument_process_per_unit_containment.2.2 c3Instrument c3NoteProcess
      c3EffectProcess (fun b => Except.ok b) 2 [c3GoodEffect] [] c3BadEffect rfl
      (fun b => rfl)⟩

/-- Counterexample to C3 as stated: after one `process()` call in which the
single live voice's processing raises, the active-voice list is empty — the
voice was permanently removed, so it does *not* participate in the next
`process()` call. -/
theorem failing_voice_is_removed :
    ((failingVoiceInstrument.process (fun _ => Except.error ())
        (fun _ _ => Except.error ()) (fun b => Except.ok b) 4).1).active_notes
      = [] := by
  decide

/-! ## Voice uniqueness (claim C5) -/

/-- An operation on an `Instrument`: `note_on`, `note_off`, or `process`
(with its fallible sub-computations as data). -/
inductive SeqOp where
  | noteOn (note_name : String) (velocity : ℚ)
  | noteOff (note_name : String)
  | processOp (noteProcess : ActiveNote → Except Unit (ActiveNote × List ℚ))
      (effectProcess : ReverbEffect → List ℚ → Except Unit (ReverbEffect × List ℚ))
      (filterStep : List ℚ → Except Unit (List ℚ)) (num_samples : ℕ)

/-- Apply one operation to an instrument. -/
def Instrument.applyOp (inst : Instrument) : SeqOp → Instrument
  | SeqOp.noteOn nm v => inst.note_on nm v
  | SeqOp.noteOff nm => inst.note_off nm
  | SeqOp.processOp np ep fs n => (inst.process np ep fs n).1

/-- Apply a sequence of operations, oldest first. -/
def Instrument.applyOps (inst : Instrument) (ops : List SeqOp) : Instrument :=
  ops.foldl Instrument.applyOp inst

/-- The per-voice computation of `process` never changes a voice's pitch
name (true of `ActiveNote.process` in the source, which only touches phases
and the envelope). -/
def namePreserving (np : ActiveNote → Except Unit (ActiveNote × List ℚ)) : Prop :=
  ∀ note r, np note = Except.ok r → r.1.note_name = note.note_name

/-- No two voices in the list share a pitch name. -/
def distinctNames (l : List ActiveNote) : Prop :=
  (l.map ActiveNote.note_name).Nodup

theorem distinctNames_note_on (inst : Instrument) (nm : String) (v : ℚ)
    (h : distinctNames inst.active_notes) :
    distinctNames (inst.note_on nm v).active_notes := by
  unfold Instrument.note_on distinctNames
  simp only [List.map_append, List.map_cons, List.map_nil]
  rw [List.nodup_append]
  refine ⟨List.Nodup.sublist ((List.filter_sublist _).map _) h,
    List.nodup_singleton _, ?_⟩
  intro a ha
  simp only [List.mem_map] at ha
  obtain ⟨x, hx, rfl⟩ := ha
  have hxne : x.note_name ≠ nm := by
    have := List.of_mem_filter hx
    simpa using this
  simp only [List.mem_singleton]
  intro hcontra
  exact hxne (by simpa [ActiveNote.create] using hcontra)

theorem distinctNames_note_off (inst : Instrument) (nm : String)
    (h : distinctNames inst.active_notes) :
    distinctNames (inst.note_off nm).active_notes := by
  unfold Instrument.note_off distinctNames
  rw [List.map_map]
  have hmap : (ActiveNote.note_name ∘ fun n => if n.note_name == nm
      then { n with envelope := n.envelope.envNoteOff } else n)
      = ActiveNote.note_name := by
    funext n
    by_cases hn : n.note_name = nm <;> simp [hn]
  rw [hmap]
  exact h

theorem processNotesLoop_names_sublist
    (np : ActiveNote → Except Unit (ActiveNote × List ℚ)) (hnp : namePreserving np)
    (l : List ActiveNote) :
    ∀ acc : List ActiveNote × List ℚ,
    ((processNotesLoop np acc l).1.map ActiveNote.note_name).Sublist
      (acc.1.map ActiveNote.note_name ++ l.map ActiveNote.note_name) := by
  induction l with
  | nil =>
      intro acc
      simp [processNotesLoop]
  | cons note rest ih =>
      intro acc
      unfold processNotesLoop
      by_cases ha : note.is_active
      · simp only [ha, if_true]
        cases hr : np note with
        | ok r =>
            have h1 := ih (acc.1 ++ [r.1], addBuf acc.2 r.2)
            simp only [List.map_append, List.map_cons, List.map_nil] at h1 ⊢
            rw [hnp note r hr] at h1
            simpa [List.append_assoc] using h1
        | error e =>
            have h1 := ih acc
            simp only [List.map_cons] at h1 ⊢
            exact h1.trans (List.Sublist.append_left (List.sublist_cons_self _ _) _)
      · simp only [ha, if_false]
        have h1 := ih acc
        simp only [List.map_cons] at h1 ⊢
        exact h1.trans (List.Sublist.append_left (List.sublist_cons_self _ _) _)

theorem distinctNames_process (inst : Instrument)
    (np : ActiveNote → Except Unit (ActiveNote × List ℚ)) (hnp : namePreserving np)
    (ep : ReverbEffect → List ℚ → Except Unit (ReverbEffect × List ℚ))
    (fs : List ℚ → Except Unit (List ℚ)) (n : ℕ)
    (h : distinctNames inst.active_notes) :
    distinctNames ((inst.process np ep fs n).1).active_notes := by
  have hsub := processNotesLoop_names_sublist np hnp inst.active_notes
    ([], List.replicate n 0)
  simp only [List.map_nil, List.nil_append] at hsub
  exact List.Nodup.sublist hsub h

theorem distinctNames_applyOps (ops : List SeqOp) :
    ∀ inst : Instrument, distinctNames inst.active_notes →
    (∀ np ep fs n, SeqOp.processOp np ep fs n ∈ ops → namePreserving np) →
    distinctNames (inst.applyOps ops).active_notes := by
  induction ops with
  | nil =>
      intro inst h _
      exact h
  | cons op rest ih =>
      intro inst h hops
      have hstep : distinctNames (inst.applyOp op).active_notes := by
        cases op with
        | noteOn nm v => exact distinctNames_note_on inst nm v h
        | noteOff nm => exact distinctNames_note_off inst nm h
        | processOp np ep fs n =>
            exact distinctNames_process inst np
              (hops np ep fs n (List.mem_cons_self _ _)) ep fs n h
      exact ih (inst.applyOp op) hstep
        (fun np ep fs n hm => hops np ep fs n (List.mem_cons_of_mem _ hm))

theorem note_on_fresh (inst : Instrument) (nm : String) (v : ℚ) :
    (inst.note_on nm v).active_notes.filter (fun a => a.note_name == nm)
      = [ActiveNote.create nm v inst] := by
  unfold Instrument.note_on
  simp only [List.filter_append]
  have h1 : (inst.active_notes.filter (fun n => n.note_name != nm)).filter
      (fun a => a.note_name == nm) = [] := by
    rw [List.filter_eq_nil_iff]
    intro a ha
    have := List.of_mem_filter ha
    simp only [bne_iff_ne, ne_eq] at this
    simp [this]
  have h2 : List.filter (fun a => a.note_name == nm) [ActiveNote.create nm v inst]
      = [ActiveNote.create nm v inst] := by
    simp [ActiveNote.create]
  rw [h1, h2, List.nil_append]

/-- Claim C5: starting from an empty voice list, after any sequence of
`note_on` / `note_off` / `process` operations (each `process` given a
per-voice computation that, like `ActiveNote.process`, never renames a
voice) the active-voice list holds at most one voice per pitch name; and
immediately after `note_on(pitch, velocity)` the voices carrying that pitch
name are exactly the one freshly constructed `ActiveNote` — whose envelope
is in the attack state at level 0 — any pre-existing voice for that pitch
having been discarded. -/
theorem instrument_voice_uniqueness :
    (∀ (ops : List SeqOp) (inst : Instrument), inst.active_notes = [] →
      (∀ np ep fs n, SeqOp.processOp np ep fs n ∈ ops → namePreserving np) →
      distinctNames (inst.applyOps ops).active_notes) ∧
    (∀ (inst : Instrument) (nm : String) (v : ℚ),
      (inst.note_on nm v).active_notes.filter (fun a => a.note_name == nm)
        = [ActiveNote.create nm v inst] ∧
      (ActiveNote.create nm v inst).envelope.state = EnvState.attack ∧
      (ActiveNote.create nm v inst).envelope.level = 0) :=
  ⟨fun ops inst h0 hops =>
    distinctNames_applyOps ops inst (by simp [distinctNames, h0]) hops,
   fun inst nm v => ⟨note_on_fresh inst nm v, rfl, rfl⟩⟩

/-- A concrete instrument with an empty voice list, used by the C5 witness. -/
def emptyInstrument : Instrument :=
  ⟨"synth", [⟨"sine", 1⟩], 1/100, 1/10, 7/10, 1/5, none, 20000, 707/1000, [], []⟩

/-- A concrete operation sequence with a re-triggered pitch, a `process`
call and a `note_off`, used by the C5 witness. -/
def demoOps : List SeqOp :=
  [SeqOp.noteOn "C4" 1, SeqOp.noteOn "C4" (1/2),
   SeqOp.processOp (fun note => Except.ok (note, []))
     (fun e b => Except.ok (e, b)) (fun b => Except.ok b) 8,
   SeqOp.noteOff "C4", SeqOp.noteOn "E4" 1]

/-- Witness for C5 at a concrete instrument and operation sequence. -/
theorem instrument_voice_uniqueness_witness :
    distinctNames ((emptyInstrument.applyOps demoOps).active_notes) ∧
    (emptyInstrument.note_on "C4" 1).active_notes.filter
        (fun a => a.note_name == "C4")
      = [ActiveNote.create "C4" 1 emptyInstrument] :=
  ⟨instrument_voice_uniqueness.1 demoOps emptyInstrument rfl
    (by
      intro np ep fs n hmem
      simp only [demoOps, List.mem_cons, List.not_mem_nil, or_false] at hmem
      rcases hmem with h | h | h | h | h
      · exact absurd h (by simp)
      · exact absurd h (by simp)
      · injection h with h1 h2 h3 h4
        subst h1
        intro note r hr
        cases hr
        rfl
      · exact absurd h (by simp)
      · exact absurd h (by simp)),
   (instrument_voice_uniqueness.2 emptyInstrument "C4" 1).1⟩

/-! ## Sequencer (`sequencer.py`) -/

/-- A pending note-off event: the tuple
`(frame, event_id, (instrument, note_name))` of `_note_off_events`.  The
source stores the `Instrument` object itself; the embedding stores the
instrument's dictionary key, which identifies the same instrument in the
keyed map. -/
structure NoteOffEvent where
  frame : ℕ
  event_id : ℕ
  instrument_id : String
  note : String
deriving DecidableEq

/-- The `Sequencer` state.  The audio stream handle is external; `is_playing`
carries the play state.  The instrument dict is a key-ordered association
list. -/
structure Sequencer where
  composition : Composition
  instruments : List (String × Instrument)
  is_playing : Bool
  current_frame : ℕ
  note_off_events : List NoteOffEvent
  event_counter : ℕ
deriving DecidableEq

/-- `Sequencer.update_composition(new_composition, new_instruments)`:
replaces both fields, resets the frame cursor, clears the note-off queue
and the event counter, and clears `active_notes` on every instrument of the
new map (the source mutates the instruments inside the new dict; the
embedding maps the clearing over the new list). -/
def Sequencer.update_composition (seq : Sequencer) (new_composition : Composition)
    (new_instruments : List (String × Instrument)) : Sequencer :=
  { seq with
      composition := new_composition
      instruments := new_instruments.map (fun p => (p.1, { p.2 with active_notes := [] }))
      current_frame := 0
      note_off_events := []
      event_counter := 0 }

/-- Claim C4: after `update_composition(new_comp, new_instr)` the
composition and instrument-map fields hold the new values (with every
instrument's voice set cleared — the source clears them in place inside the
new dict), the frame cursor is `0`, the note-off queue is empty, every
instrument in the new map has an empty active-voice set, and the play state
is unchanged. -/
theorem update_composition_resets (seq : Sequencer) (c : Composition)
    (insts : List (String × Instrument)) :
    (seq.update_composition c insts).composition = c ∧
    (seq.update_composition c insts).instruments
      = insts.map (fun p => (p.1, { p.2 with active_notes := [] })) ∧
    (seq.update_composition c insts).current_frame = 0 ∧
    (seq.update_composition c insts).note_off_events = [] ∧
    (∀ p ∈ (seq.update_composition c insts).instruments, p.2.active_notes = []) ∧
    (seq.update_composition c insts).is_playing = seq.is_playing := by
  refine ⟨rfl, rfl, rfl, rfl, ?_, rfl⟩
  intro p hp
  simp only [Sequencer.update_composition, List.mem_map] at hp
  obtain ⟨q, _, rfl⟩ := hp
  rfl

/-- `int(self.composition.get_step_duration() * SAMPLE_RATE)` (`int()`
truncation equals `⌊·⌋` on these non-negative values). -/
def stepDurationFrames (c : Composition) : ℕ :=
  (c.get_step_duration * SAMPLE_RATE).floor.toNat

/-- `[len(p.steps) for t in tracks for p in t.patterns if p.steps]`. -/
def allPatternLengths (c : Composition) : List ℕ :=
  (c.tracks.map (fun t =>
    (t.patterns.filter (fun p => p.steps != [])).map (fun p => p.steps.length))).flatten

/-- `max(all_pattern_lengths) if all_pattern_lengths else 64`. -/
def totalLoopSteps (c : Composition) : ℕ :=
  let lens := allPatternLengths c
  if lens = [] then 64 else lens.foldl max 0

/-- `bisect.insort` of an event tuple into the frame-sorted queue
(lexicographic on `(frame, event_id)`; event ids are unique, so the payload
is never compared). -/
def insortEvent (e : NoteOffEvent) : List NoteOffEvent → List NoteOffEvent
  | [] => [e]
  | x :: xs =>
      if e.frame < x.frame ∨ (e.frame = x.frame ∧ e.event_id < x.event_id) then
        e :: x :: xs
      else x :: insortEvent e xs

/-- `instrument.note_off(note_name)` applied through the keyed map. -/
def instMapNoteOff (insts : List (String × Instrument)) (id note : String) :
    List (String × Instrument) :=
  insts.map (fun p => if p.1 == id then (p.1, p.2.note_off note) else p)

/-- `instrument.note_on(note, velocity)` applied through the keyed map. -/
def instMapNoteOn (insts : List (String × Instrument)) (id note : String) (vel : ℚ) :
    List (String × Instrument) :=
  insts.map (fun p => if p.1 == id then (p.1, p.2.note_on note vel) else p)

/-- Steps 1a/1b of `_audio_callback`: walk the sorted queue; every event
with `frame < end_frame` is consumed, and fired when `frame ≥ start_frame`;
the first event at or past `end_frame` stops the walk.  Returns the
remaining queue and the updated instruments. -/
def fireNoteOffs (start_frame end_frame : ℕ) :
    List NoteOffEvent → List (String × Instrument) →
    List NoteOffEvent × List (String × Instrument)
  | [], insts => ([], insts)
  | e :: rest, insts =>
      if e.frame < end_frame then
        fireNoteOffs start_frame end_frame rest
          (if start_frame ≤ e.frame then instMapNoteOff insts e.instrument_id e.note
           else insts)
      else (e :: rest, insts)

/-- The event-scheduling state threaded through step 1c of
`_audio_callback`, plus the trace of `note_on` calls made
(`(instrument_id, note, velocity)` per call). -/
structure SchedState where
  instruments : List (String × Instrument)
  events : List NoteOffEvent
  counter : ℕ
  note_on_calls : List (String × String × ℚ)

/-- The per-track body of step 1c of `_audio_callback` for one `step`
value: resolve the active pattern via
`(step // total_loop_steps) % len(sequence)`, index it via
`current_loop_step % len(pattern.steps)`, and on a resolvable note event
call `note_on` and insort the matching note-off at
`step*step_duration_frames + duration*step_duration_frames`. -/
def trackNoteOn (sdf total_loop_steps step : ℕ) (st : SchedState) (track : Track) :
    SchedState :=
  if track.patterns = [] ∨ track.sequence = [] then st
  else
    let current_loop_step := step % total_loop_steps
    let sequence_index := (step / total_loop_steps) % track.sequence.length
    let pattern_index := track.sequence.getD sequence_index 0
    if track.patterns.length ≤ pattern_index then st
    else
      let pattern := track.patterns.getD pattern_index ⟨[]⟩
      if pattern.steps = [] then st
      else
        let pattern_step := current_loop_step % pattern.steps.length
        match pattern.steps.getD pattern_step none with
        | none => st
        | some note_event =>
            if strTruthy note_event.note then
              match st.instruments.find? (fun p => p.1 == track.instrument_id) with
              | none => st
              | some _ =>
                  let nm := note_event.note.getD ""
                  let duration_in_frames := note_event.duration * sdf
                  let note_off_frame := step * sdf + duration_in_frames
                  { instruments :=
                      instMapNoteOn st.instruments track.instrument_id nm
                        note_event.velocity
                    events := insortEvent
                      ⟨note_off_frame, st.counter, track.instrument_id, nm⟩ st.events
                    counter := st.counter + 1
                    note_on_calls :=
                      st.note_on_calls ++ [(track.instrument_id, nm, note_event.velocity)] }
            else st

/-- The `for step in range(start_step, end_step + 1)` loop of step 1c, over
all tracks. -/
def stepsLoop (tracks : List Track) (sdf tls : ℕ) (st : SchedState)
    (steps : List ℕ) : SchedState :=
  steps.foldl (fun s step => tracks.foldl (trackNoteOn sdf tls step) s) st

/-- The event-scheduling part of `Sequencer._audio_callback(frames)`
(steps 1a-1c) together with the cursor advance of step 3; returns the
updated sequencer and the trace of `note_on` calls made.  The audio-mixing
step 2 only reads the instrument map through `Instrument.process` and does
not touch the event queue, the counters or the set of `note_on` calls, so
it is not replayed here.  When `step_duration_frames` is `0` the source
skips all scheduling and still advances the cursor. -/
def Sequencer.audioCallback (seq : Sequencer) (frames : ℕ) :
    Sequencer × List (String × String × ℚ) :=
  let start_frame := seq.current_frame
  let end_frame := start_frame + frames
  let sdf := stepDurationFrames seq.composition
  if 0 < sdf then
    let total_loop_steps := totalLoopSteps seq.composition
    let start_step := start_frame / sdf
    let end_step := end_frame / sdf
    let fired := fireNoteOffs start_frame end_frame seq.note_off_events seq.instruments
    let st0 : SchedState := ⟨fired.2, fired.1, seq.event_counter, []⟩
    let st := stepsLoop seq.composition.tracks sdf total_loop_steps st0
      (List.range' start_step (end_step + 1 - start_step))
    ({ seq with
        instruments := st.instruments
        note_off_events := st.events
        event_counter := st.counter
        current_frame := end_frame },
      st.note_on_calls)
  else
    ({ seq with current_frame := end_frame }, [])

/-- Run `n` consecutive audio callbacks of `frames` frames each, summing the
number of `note_on` calls made. -/
def runCallbacks (seq : Sequencer) : ℕ → ℕ → Sequencer × ℕ
  | 0, _ => (seq, 0)
  | n + 1, frames =>
      let r := seq.audioCallback frames
      let rest := runCallbacks r.1 n frames
      (rest.1, r.2.length + rest.2)

/-- The C1 composition: bpm 120, one track, a single 64-step pattern with
note events at steps 0, 16, 32 and 48, sequence `[0]`. -/
def c1Composition : Composition :=
  ⟨120, [⟨"kick",
    [⟨((((List.replicate 64 (none : Option NoteEvent)).set 0
          (some ⟨some "C1", 1, 1⟩)).set 16
          (some ⟨some "C1", 1, 1⟩)).set 32
          (some ⟨some "C1", 1, 1⟩)).set 48
          (some ⟨some "C1", 1, 1⟩)⟩], [0]⟩]⟩

/-- The C1 sequencer: the composition above with a matching kick instrument,
cursor at frame 0. -/
def c1Sequencer : Sequencer :=
  ⟨c1Composition,
   [("kick", ⟨"kick", [⟨"sine", 1⟩], 1/100, 1/10, 7/10, 1/5, none, 20000,
      707/1000, [], []⟩)],
   false, 0, [], 0⟩

set_option maxRecDepth 100000 in
/-- Claim C1 (code evaluation at the failing input): at 120 bpm a step lasts
`int(0.125 · 44100) = 5512` frames, so one full 64-step loop is 352768
frames.  Driving `_audio_callback` over that loop fires `note_on` **5**
times when the loop is one single block (the `range(start_step,
end_step + 1)` loop also processes step 64 ≡ step 0), and **8** times when
the loop is split into 64 blocks of 5512 frames (each boundary step is
processed both as `end_step` of one block and as `start_step` of the next)
— never the 4 the claim states, and not independent of the partition.  The
note-off enqueue count (`event_counter`) equals the `note_on` count. -/
theorem audio_callback_step_overcount :
    ((c1Sequencer.audioCallback 352768).2).length = 5 ∧
    (c1Sequencer.audioCallback 352768).1.event_counter = 5 ∧
    (runCallbacks c1Sequencer 64 5512).2 = 8 ∧
    (runCallbacks c1Sequencer 64 5512).1.event_counter = 8 := by
  refine ⟨?_, ?_, ?_, ?_⟩ <;> decide

/-! ## Envelope block vs. sample-by-sample generator (claims C2 and C8) -/

theorem getD_map_range (f : ℕ → ℚ) (n i : ℕ) :
    ((List.range n).map f).getD i 0 = if i < n then f i else 0 := by
  by_cases h : i < n
  · rw [List.getD_eq_getElem?_getD, List.getElem?_map, List.getElem?_range h]
    simp [h]
  · rw [List.getD_eq_getElem?_getD, List.getElem?_eq_none (by simpa using Nat.le_of_not_lt h)]
    simp [h]

theorem getLastD_map_range (f : ℕ → ℚ) (n : ℕ) (hn : 0 < n) (d : ℚ) :
    ((List.range n).map f).getLastD d = f (n - 1) := by
  cases n with
  | zero => omega
  | succ m =>
      rw [List.range_succ, List.map_append, List.map_cons, List.map_nil,
        List.getLastD_concat]
      simp

theorem processTake_attack (n : ℕ) :
    ∀ env : ADSREnvelope, env.state = EnvState.attack →
    0 < env.attack_rate → env.level + (n : ℚ) * env.attack_rate < 1 →
    env.processTake n = ({ env with level := env.level + (n : ℚ) * env.attack_rate },
      (List.range n).map fun i : ℕ => env.level + ((i : ℚ) + 1) * env.attack_rate) := by
  induction n with
  | zero =>
      intro env hs _ _
      have h0 : env.level + ((0 : ℕ) : ℚ) * env.attack_rate = env.level := by
        push_cast
        ring
      rw [h0]
      cases env
      rfl
  | succ m ih =>
      intro env hs hr hb
      have hstep : env.processStep = ({ env with level := env.level + env.attack_rate },
          env.level + env.attack_rate) := by
        unfold ADSREnvelope.processStep
        rw [hs]
        simp only
        rw [if_neg]
        intro hge
        have hcast : ((m : ℚ) + 1) ≤ ((m + 1 : ℕ) : ℚ) := by push_cast; ring_nf; rfl
        have h1 : env.level + env.attack_rate ≤ env.level + ((m + 1 : ℕ) : ℚ) * env.attack_rate := by
          push_cast
          nlinarith [hr, (show (0 : ℚ) ≤ (m : ℚ) from Nat.cast_nonneg m)]
        linarith
      unfold ADSREnvelope.processTake
      rw [hstep]
      simp only
      rw [ih { env with level := env.level + env.attack_rate } hs hr
        (by simp only; push_cast at hb ⊢; linarith)]
      simp only [Prod.mk.injEq]
      constructor
      · congr 1
        push_cast
        ring
      · rw [List.range_succ_eq_map, List.map_cons, List.map_map]
        congr 1
        · push_cast
          ring
        · apply List.map_congr_left
          intro i _
          simp only [Function.comp_apply, Nat.succ_eq_add_one]
          push_cast
          ring

theorem block_attack (env : ADSREnvelope) (N : ℕ)
    (hs : env.state = EnvState.attack) (hr : 0 < env.attack_rate)
    (hN : 0 < N) (hb : env.level + (N : ℚ) * env.attack_rate < 1) :
    generate_envelope_block env N
      = ({ env with level := env.level + ((N : ℚ) - 1) * env.attack_rate },
        (List.range N).map fun i : ℕ => env.level + (i : ℚ) * env.attack_rate) := by
  have hlt : ∀ i : ℕ, i < N → env.level + (i : ℚ) * env.attack_rate < 1 := by
    intro i hi
    have hcast : (i : ℚ) < (N : ℚ) := by exact_mod_cast hi
    nlinarith
  have hsamples : (List.range N).map
      (fun i : ℕ => min (env.level + (i : ℚ) * env.attack_rate) 1)
      = (List.range N).map fun i : ℕ => env.level + (i : ℚ) * env.attack_rate := by
    apply List.map_congr_left
    intro i hi
    exact min_eq_left (le_of_lt (hlt i (List.mem_range.mp hi)))
  have hlast : ((List.range N).map
      (fun i : ℕ => env.level + (i : ℚ) * env.attack_rate)).getLastD env.level
      = env.level + ((N : ℚ) - 1) * env.attack_rate := by
    rw [getLastD_map_range _ _ hN]
    congr 1
    have : ((N - 1 : ℕ) : ℚ) = (N : ℚ) - 1 := by
      have : 1 ≤ N := hN
      push_cast [this]
      ring
    rw [this]
  unfold generate_envelope_block
  rw [hs]
  simp only [hsamples, hlast]
  rw [if_neg]
  have hlt2 : env.level + ((N : ℚ) - 1) * env.attack_rate < 1 := by nlinarith
  linarith

theorem processTake_decay (n : ℕ) :
    ∀ env : ADSREnvelope, env.state = EnvState.decay →
    0 < env.decay_rate → env.sustain_level < env.level - (n : ℚ) * env.decay_rate →
    env.processTake n = ({ env with level := env.level - (n : ℚ) * env.decay_rate },
      (List.range n).map fun i : ℕ => env.level - ((i : ℚ) + 1) * env.decay_rate) := by
  induction n with
  | zero =>
      intro env hs _ _
      have h0 : env.level - ((0 : ℕ) : ℚ) * env.decay_rate = env.level := by
        push_cast
        ring
      rw [h0]
      cases env
      rfl
  | succ m ih =>
      intro env hs hr hb
      have hstep : env.processStep = ({ env with level := env.level - env.decay_rate },
          env.level - env.decay_rate) := by
        unfold ADSREnvelope.processStep
        rw [hs]
        simp only
        rw [if_neg]
        intro hle
        push_cast at hb
        nlinarith [mul_nonneg (show (0 : ℚ) ≤ (m : ℚ) from Nat.cast_nonneg m)
          (le_of_lt hr)]
      unfold ADSREnvelope.processTake
      rw [hstep]
      simp only
      rw [ih { env with level := env.level - env.decay_rate } hs hr
        (by simp only; push_cast at hb ⊢; linarith)]
      simp only [Prod.mk.injEq]
      constructor
      · congr 1
        push_cast
        ring
      · rw [List.range_succ_eq_map, List.map_cons, List.map_map]
        congr 1
        · push_cast
          ring
        · apply List.map_congr_left
          intro i _
          simp only [Function.comp_apply, Nat.succ_eq_add_one]
          push_cast
          ring

theorem processTake_release (n : ℕ) :
    ∀ env : ADSREnvelope, env.state = EnvState.release →
    0 < env.release_rate → 0 < env.level - (n : ℚ) * env.release_rate →
    env.processTake n = ({ env with level := env.level - (n : ℚ) * env.release_rate },
      (List.range n).map fun i : ℕ => env.level - ((i : ℚ) + 1) * env.release_rate) := by
  induction n with
  | zero =>
      intro env hs _ _
      have h0 : env.level - ((0 : ℕ) : ℚ) * env.release_rate = env.level := by
        push_cast
        ring
      rw [h0]
      cases env
      rfl
  | succ m ih =>
      intro env hs hr hb
      have hstep : env.processStep = ({ env with level := env.level - env.release_rate },
          env.level - env.release_rate) := by
        unfold ADSREnvelope.processStep
        rw [hs]
        simp only
        rw [if_neg]
        intro hle
        push_cast at hb
        nlinarith [mul_nonneg (show (0 : ℚ) ≤ (m : ℚ) from Nat.cast_nonneg m)
          (le_of_lt hr)]
      unfold ADSREnvelope.processTake
      rw [hstep]
      simp only
      rw [ih { env with level := env.level - env.release_rate } hs hr
        (by simp only; push_cast at hb ⊢; linarith)]
      simp only [Prod.mk.injEq]
      constructor
      · congr 1
        push_cast
        ring
      · rw [List.range_succ_eq_map, List.map_cons, List.map_map]
        congr 1
        · push_cast
          ring
        · apply List.map_congr_left
          intro i _
          simp only [Function.comp_apply, Nat.succ_eq_add_one]
          push_cast
          ring

theorem processTake_sustain (n : ℕ) :
    ∀ env : ADSREnvelope, env.state = EnvState.sustain →
    env.level = env.sustain_level →
    env.processTake n = (env, List.replicate n env.sustain_level) := by
  induction n with
  | zero =>
      intro env _ _
      rfl
  | succ m ih =>
      intro env hs hl
      have hstep : env.processStep = (env, env.sustain_level) := by
        cases env with
        | mk ar dr rt rr sl st lv =>
            simp only at hs hl
            subst hs
            subst hl
            rfl
      unfold ADSREnvelope.processTake
      rw [hstep]
      simp only
      rw [ih env hs hl]
      rfl

theorem processTake_off (n : ℕ) :
    ∀ env : ADSREnvelope, env.state = EnvState.off → env.level = 0 →
    env.processTake n = (env, List.replicate n 0) := by
  induction n with
  | zero =>
      intro env _ _
      rfl
  | succ m ih =>
      intro env hs hl
      have hstep : env.processStep = (env, 0) := by
        cases env with
        | mk ar dr rt rr sl st lv =>
            simp only at hs hl
            subst hs
            subst hl
            rfl
      unfold ADSREnvelope.processTake
      rw [hstep]
      simp only
      rw [ih env hs hl]
      rfl

theorem block_decay (env : ADSREnvelope) (N : ℕ)
    (hs : env.state = EnvState.decay) (hr : 0 < env.decay_rate)
    (hN : 0 < N) (hb : env.sustain_level < env.level - (N : ℚ) * env.decay_rate) :
    generate_envelope_block env N
      = ({ env with level := env.level - ((N : ℚ) - 1) * env.decay_rate },
        (List.range N).map fun i : ℕ => env.level - (i : ℚ) * env.decay_rate) := by
  have hlt : ∀ i : ℕ, i < N → env.sustain_level < env.level - (i : ℚ) * env.decay_rate := by
    intro i hi
    have hcast : (i : ℚ) < (N : ℚ) := by exact_mod_cast hi
    nlinarith
  have hsamples : (List.range N).map
      (fun i : ℕ => max (env.level - (i : ℚ) * env.decay_rate) env.sustain_level)
      = (List.range N).map fun i : ℕ => env.level - (i : ℚ) * env.decay_rate := by
    apply List.map_congr_left
    intro i hi
    exact max_eq_left (le_of_lt (hlt i (List.mem_range.mp hi)))
  have hlast : ((List.range N).map
      (fun i : ℕ => env.level - (i : ℚ) * env.decay_rate)).getLastD env.level
      = env.level - ((N : ℚ) - 1) * env.decay_rate := by
    rw [getLastD_map_range _ _ hN]
    congr 1
    have : ((N - 1 : ℕ) : ℚ) = (N : ℚ) - 1 := by
      have : 1 ≤ N := hN
      push_cast [this]
      ring
    rw [this]
  unfold generate_envelope_block
  rw [hs]
  simp only [hsamples, hlast]
  rw [if_neg]
  have hlt2 : env.sustain_level < env.level - ((N : ℚ) - 1) * env.decay_rate := by nlinarith
  linarith

theorem block_release (env : ADSREnvelope) (N : ℕ)
    (hs : env.state = EnvState.release) (hr : 0 < env.release_rate)
    (hN : 0 < N) (hb : 0 < env.level - (N : ℚ) * env.release_rate) :
    generate_envelope_block env N
      = ({ env with level := env.level - ((N : ℚ) - 1) * env.release_rate },
        (List.range N).map fun i : ℕ => env.level - (i : ℚ) * env.release_rate) := by
  have hlt : ∀ i : ℕ, i < N → 0 < env.level - (i : ℚ) * env.release_rate := by
    intro i hi
    have hcast : (i : ℚ) < (N : ℚ) := by exact_mod_cast hi
    nlinarith
  have hsamples : (List.range N).map
      (fun i : ℕ => max (env.level - (i : ℚ) * env.release_rate) 0)
      = (List.range N).map fun i : ℕ => env.level - (i : ℚ) * env.release_rate := by
    apply List.map_congr_left
    intro i hi
    exact max_eq_left (le_of_lt (hlt i (List.mem_range.mp hi)))
  have hlast : ((List.range N).map
      (fun i : ℕ => env.level - (i : ℚ) * env.release_rate)).getLastD env.level
      = env.level - ((N : ℚ) - 1) * env.release_rate := by
    rw [getLastD_map_range _ _ hN]
    congr 1
    have : ((N - 1 : ℕ) : ℚ) = (N : ℚ) - 1 := by
      have : 1 ≤ N := hN
      push_cast [this]
      ring
    rw [this]
  unfold generate_envelope_block
  rw [hs]
  simp only [hsamples, hlast]
  rw [if_neg]
  have hlt2 : 0 < env.level - ((N : ℚ) - 1) * env.release_rate := by nlinarith
  linarith

theorem range_lag_add (L s : ℚ) (N : ℕ) (hN : 0 < N) :
    (List.range N).map (fun i : ℕ => L + (i : ℚ) * s)
      = L :: (List.range (N - 1)).map (fun i : ℕ => L + ((i : ℚ) + 1) * s) := by
  obtain ⟨m, rfl⟩ : ∃ m, N = m + 1 := ⟨N - 1, (Nat.succ_pred_eq_of_pos hN).symm⟩
  simp only [Nat.add_sub_cancel]
  rw [List.range_succ_eq_map, List.map_cons, List.map_map]
  congr 1
  · push_cast
    ring
  · apply List.map_congr_left
    intro i _
    simp only [Function.comp_apply, Nat.succ_eq_add_one]
    push_cast
    ring

theorem range_lag_sub (L s : ℚ) (N : ℕ) (hN : 0 < N) :
    (List.range N).map (fun i : ℕ => L - (i : ℚ) * s)
      = L :: (List.range (N - 1)).map (fun i : ℕ => L - ((i : ℚ) + 1) * s) := by
  obtain ⟨m, rfl⟩ : ∃ m, N = m + 1 := ⟨N - 1, (Nat.succ_pred_eq_of_pos hN).symm⟩
  simp only [Nat.add_sub_cancel]
  rw [List.range_succ_eq_map, List.map_cons, List.map_map]
  congr 1
  · push_cast
    ring
  · apply List.map_congr_left
    intro i _
    simp only [Function.comp_apply, Nat.succ_eq_add_one]
    push_cast
    ring

/-- The stage boundary of the envelope's current state does not fall inside
a block of `N` samples (with a positive rate for the ramping states), and
the level is consistent with the state for the flat states: sustain holds
at `sustain_level` and off at `0`, exactly the levels every reachable
sustain/off envelope has. -/
def noBoundaryInBlock (env : ADSREnvelope) (N : ℕ) : Prop :=
  match env.state with
  | EnvState.attack =>
      0 < env.attack_rate ∧ env.level + (N : ℚ) * env.attack_rate < 1
  | EnvState.decay =>
      0 < env.decay_rate ∧ env.sustain_level < env.level - (N : ℚ) * env.decay_rate
  | EnvState.release =>
      0 < env.release_rate ∧ 0 < env.level - (N : ℚ) * env.release_rate
  | EnvState.sustain => env.level = env.sustain_level
  | EnvState.off => env.level = 0

/-- Claim C2 (amended): for every envelope state, the vectorized
`_generate_envelope_block` lags the sample-by-sample `ADSREnvelope.process`
generator by exactly one sample whenever no stage boundary falls inside the
(nonempty) block: the block of `N` values is the stored level followed by
the generator's first `N − 1` values, and the envelope is left exactly
where `N − 1` generator steps leave it.  In the sustain and off states
(level at `sustain_level` and `0` respectively, as for every reachable such
envelope) this lag relation is exact agreement.  Exact equality with `N`
generator values and the `N`-step state, as the claim states it, is false
(`vectorized_envelope_differs`): the generator pre-increments before
yielding, and when a stage boundary falls inside a block the vectorized
path clamps at the stage target instead of entering the next stage. -/
theorem adsr_vectorized_lags_generator (env : ADSREnvelope) (N : ℕ)
    (hN : 0 < N) (h : noBoundaryInBlock env N) :
    generate_envelope_block env N
      = ((env.processTake (N - 1)).1, env.level :: (env.processTake (N - 1)).2) := by
  have hcast : ((N - 1 : ℕ) : ℚ) = (N : ℚ) - 1 := by
    have h1 : 1 ≤ N := hN
    push_cast [h1]
    ring
  cases hstate : env.state with
  | attack =>
      simp only [noBoundaryInBlock, hstate] at h
      obtain ⟨hr, hb⟩ := h
      have hb1 : env.level + ((N - 1 : ℕ) : ℚ) * env.attack_rate < 1 := by
        rw [hcast]
        nlinarith
      rw [block_attack env N hstate hr hN hb,
        processTake_attack (N - 1) env hstate hr hb1]
      simp only [Prod.mk.injEq]
      refine ⟨by congr 1; rw [hcast], ?_⟩
      exact range_lag_add env.level env.attack_rate N hN
  | decay =>
      simp only [noBoundaryInBlock, hstate] at h
      obtain ⟨hr, hb⟩ := h
      have hb1 : env.sustain_level < env.level - ((N - 1 : ℕ) : ℚ) * env.decay_rate := by
        rw [hcast]
        nlinarith
      rw [block_decay env N hstate hr hN hb,
        processTake_decay (N - 1) env hstate hr hb1]
      simp only [Prod.mk.injEq]
      refine ⟨by congr 1; rw [hcast], ?_⟩
      exact range_lag_sub env.level env.decay_rate N hN
  | release =>
      simp only [noBoundaryInBlock, hstate] at h
      obtain ⟨hr, hb⟩ := h
      have hb1 : 0 < env.level - ((N - 1 : ℕ) : ℚ) * env.release_rate := by
        rw [hcast]
        nlinarith
      rw [block_release env N hstate hr hN hb,
        processTake_release (N - 1) env hstate hr hb1]
      simp only [Prod.mk.injEq]
      refine ⟨by congr 1; rw [hcast], ?_⟩
      exact range_lag_sub env.level env.release_rate N hN
  | sustain =>
      simp only [noBoundaryInBlock, hstate] at h
      rw [processTake_sustain (N - 1) env hstate h]
      unfold generate_envelope_block
      rw [hstate]
      simp only [Prod.mk.injEq]
      refine ⟨trivial, ?_⟩
      obtain ⟨m, rfl⟩ : ∃ m, N = m + 1 := ⟨N - 1, (Nat.succ_pred_eq_of_pos hN).symm⟩
      simp only [Nat.add_sub_cancel]
      rw [h]
      rfl
  | off =>
      simp only [noBoundaryInBlock, hstate] at h
      rw [processTake_off (N - 1) env hstate h]
      unfold generate_envelope_block
      rw [hstate]
      simp only [Prod.mk.injEq]
      refine ⟨trivial, ?_⟩
      obtain ⟨m, rfl⟩ : ∃ m, N = m + 1 := ⟨N - 1, (Nat.succ_pred_eq_of_pos hN).symm⟩
      simp only [Nat.add_sub_cancel]
      rw [h]
      rfl

/-- A concrete attack-state envelope (`attack_rate = 1/8`, level `0`). -/
def c2Envelope : ADSREnvelope :=
  ⟨1/8, 1/4, 1/5, 0, 1/2, EnvState.attack, 0⟩

/-- A concrete decay-state envelope (`decay_rate = 1/16`, level `1`). -/
def c2DecayEnvelope : ADSREnvelope :=
  ⟨1/8, 1/16, 1/5, 0, 1/2, EnvState.decay, 1⟩

/-- A concrete sustain-state envelope holding at its sustain level `1/2`. -/
def c2SustainEnvelope : ADSREnvelope :=
  ⟨1/8, 1/16, 1/5, 0, 1/2, EnvState.sustain, 1/2⟩

/-- Counterexample to C2 as stated: on `c2Envelope` with block size 1 the
vectorized block returns `[0]` (the stored level) and leaves the level at
`0`, while one step of the sample-by-sample generator yields `[1/8]` and
leaves the level at `1/8`. -/
theorem vectorized_envelope_differs :
    (generate_envelope_block c2Envelope 1).2 ≠ (c2Envelope.processTake 1).2 ∧
    (generate_envelope_block c2Envelope 1).1.level
      ≠ (c2Envelope.processTake 1).1.level := by
  decide

/-- Witness for C2's amended theorem: the one-sample lag at a block of 3
samples in the attack, decay and sustain states. -/
theorem adsr_vectorized_lags_generator_witness :
    (generate_envelope_block c2Envelope 3
      = ((c2Envelope.processTake 2).1,
         c2Envelope.level :: (c2Envelope.processTake 2).2)) ∧
    (generate_envelope_block c2DecayEnvelope 3
      = ((c2DecayEnvelope.processTake 2).1,
         c2DecayEnvelope.level :: (c2DecayEnvelope.processTake 2).2)) ∧
    (generate_envelope_block c2SustainEnvelope 3
      = ((c2SustainEnvelope.processTake 2).1,
         c2SustainEnvelope.level :: (c2SustainEnvelope.processTake 2).2)) :=
  ⟨adsr_vectorized_lags_generator c2Envelope 3 (by norm_num)
     (by norm_num [noBoundaryInBlock, c2Envelope]),
   adsr_vectorized_lags_generator c2DecayEnvelope 3 (by norm_num)
     (by norm_num [noBoundaryInBlock, c2DecayEnvelope]),
   adsr_vectorized_lags_generator c2SustainEnvelope 3 (by norm_num)
     (by norm_num [noBoundaryInBlock, c2SustainEnvelope])⟩

/-- Claim C8: calling `note_off` at level `L > 0` with `release_time = R > 0`
such that `R·SAMPLE_RATE = n` frames, and then generating one vectorized
block of `N > n` samples, yields the ramp `max(L − i·(L/n), 0)`: it starts
at exactly `L` (not 1), decreases linearly, is still positive at every
sample before index `n`, and reaches exactly `0` at sample `n` — i.e. after
`R·SAMPLE_RATE` samples, exactly `R` seconds. -/
theorem adsr_release_ramp (env : ADSREnvelope) (n N : ℕ)
    (hR : 0 < env.release_time)
    (hn : (n : ℚ) = env.release_time * SAMPLE_RATE)
    (hL : 0 < env.level) (hN : n < N) :
    ((generate_envelope_block env.envNoteOff N).2).getD 0 0 = env.level ∧
    (∀ i : ℕ, ((generate_envelope_block env.envNoteOff N).2).getD i 0
        = max (env.level - (i : ℚ) * (env.level / (n : ℚ))) 0) ∧
    ((generate_envelope_block env.envNoteOff N).2).getD n 0 = 0 ∧
    (∀ i : ℕ, i < n → 0 < ((generate_envelope_block env.envNoteOff N).2).getD i 0) := by
  have hn0 : 0 < n := by
    rcases Nat.eq_zero_or_pos n with h0 | h
    · exfalso
      rw [h0] at hn
      have : (0 : ℚ) < env.release_time * SAMPLE_RATE := by
        apply mul_pos hR
        norm_num [SAMPLE_RATE]
      rw [← hn] at this
      simp at this
    · exact h
  have hnq : (0 : ℚ) < (n : ℚ) := by exact_mod_cast hn0
  have hrate : env.envNoteOff.release_rate = env.level / (n : ℚ) := by
    unfold ADSREnvelope.envNoteOff
    rw [if_pos hR]
    simp only
    rw [hn]
  have hstate : env.envNoteOff.state = EnvState.release := by
    unfold ADSREnvelope.envNoteOff
    rw [if_pos hR]
  have hlevel : env.envNoteOff.level = env.level := by
    unfold ADSREnvelope.envNoteOff
    rw [if_pos hR]
  have hblock : (generate_envelope_block env.envNoteOff N).2
      = (List.range N).map
        (fun i : ℕ => max (env.level - (i : ℚ) * (env.level / (n : ℚ))) 0) := by
    unfold generate_envelope_block
    rw [hstate]
    simp only [hrate, hlevel]
  have hall : ∀ i : ℕ, ((generate_envelope_block env.envNoteOff N).2).getD i 0
      = max (env.level - (i : ℚ) * (env.level / (n : ℚ))) 0 := by
    intro i
    rw [hblock, getD_map_range]
    by_cases hi : i < N
    · rw [if_pos hi]
    · rw [if_neg hi]
      have hge : (n : ℚ) ≤ (i : ℚ) := by
        exact_mod_cast Nat.le_of_lt (Nat.lt_of_lt_of_le hN (Nat.le_of_not_lt hi))
      have harg : env.level - (i : ℚ) * (env.level / (n : ℚ)) ≤ 0 := by
        have h1 : (n : ℚ) * (env.level / (n : ℚ)) = env.level := by
          field_simp
        nlinarith [div_pos hL hnq]
      rw [max_eq_right harg]
  refine ⟨?_, hall, ?_, ?_⟩
  · rw [hall 0]
    push_cast
    rw [zero_mul, sub_zero, max_eq_left (le_of_lt hL)]
  · rw [hall n]
    have h1 : (n : ℚ) * (env.level / (n : ℚ)) = env.level := by field_simp
    rw [h1, sub_self, max_self]
  · intro i hi
    rw [hall i]
    have hilt : (i : ℚ) < (n : ℚ) := by exact_mod_cast hi
    have harg : 0 < env.level - (i : ℚ) * (env.level / (n : ℚ)) := by
      have h1 : (n : ℚ) * (env.level / (n : ℚ)) = env.level := by field_simp
      nlinarith [div_pos hL hnq]
    exact lt_of_lt_of_le harg (le_max_left _ _)

/-- A concrete sounding envelope at level `1/2` with
`release_time = 1/11025` (so the release spans exactly 4 samples). -/
def c8Envelope : ADSREnvelope :=
  ⟨1, 1, 1/11025, 0, 1/2, EnvState.sustain, 1/2⟩

/-- Witness for C8: on `c8Envelope`, after `note_off` the 6-sample block
starts at `1/2`, is still positive at sample 2, and is exactly `0` at
sample `4 = release_time · SAMPLE_RATE`. -/
theorem adsr_release_ramp_witness :
    ((generate_envelope_block c8Envelope.envNoteOff 6).2).getD 0 0 = 1/2 ∧
    0 < ((generate_envelope_block c8Envelope.envNoteOff 6).2).getD 2 0 ∧
    ((generate_envelope_block c8Envelope.envNoteOff 6).2).getD 4 0 = 0 :=
  ⟨(adsr_release_ramp c8Envelope 4 6 (by norm_num [c8Envelope])
      (by norm_num [c8Envelope, SAMPLE_RATE]) (by norm_num [c8Envelope])
      (by norm_num)).1,
   (adsr_release_ramp c8Envelope 4 6 (by norm_num [c8Envelope])
      (by norm_num [c8Envelope, SAMPLE_RATE]) (by norm_num [c8Envelope])
      (by norm_num)).2.2.2 2 (by norm_num),
   (adsr_release_ramp c8Envelope 4 6 (by norm_num [c8Envelope])
      (by norm_num [c8Envelope, SAMPLE_RATE]) (by norm_num [c8Envelope])
      (by norm_num)).2.2.1⟩

/-! ## Oscillator blocks (`ActiveNote._generate_oscillator_block`, claim C6) -/

end VibeTracker
